import Mathlib

/-! Board consistency and claim core.

A shallow embedding of the activity and column logic of the task board:
the Express route handlers of `server.js` that read and rewrite the
activity collection, and the `ColumnManager` object of `public/script.js`.

The JSON files behind `readJSON` / `writeJSON` are modelled as the value
they hold: a handler takes the collection it reads and returns the HTTP
response together with the collection that is on disk afterwards.
-/

namespace Board

/-! ## Data model (server.js) -/

/-- An activity record as stored in `activities.json` (server.js, lines 73-96
and 268-279). `assignedTo` and `developmentBy` are either a user id or `null`. -/
structure Activity where
  id : String
  projectId : String
  title : String
  description : String
  column : String
  assignedTo : Option String
  inDevelopment : Bool
  developmentBy : Option String
  createdAt : String
  order : Nat
deriving DecidableEq, Repr

/-- A user record of `users.json`. -/
structure User where
  id : String
  username : String
  password : String
  name : String
  email : String
deriving DecidableEq, Repr

/-- What a handler sends: `res.json(body)` (status 200) or
`res.status(code).json(\x7b message \x7d)`. -/
inductive Response (α : Type) where
  | json (body : α)
  | error (status : Nat) (message : String)
deriving DecidableEq, Repr

/-- HTTP status of a response. -/
def Response.status {α : Type} : Response α → Nat
  | .json _ => 200
  | .error s _ => s

/-- `Array.prototype.findIndex`: position of the first element satisfying
`p`, `none` standing for `-1`. -/
def findIndex {α : Type} (p : α → Bool) : List α → Option Nat
  | [] => none
  | x :: xs => if p x then some 0 else (findIndex p xs).map (· + 1)

/-- `authenticateToken` (server.js, lines 123-137): the `user-id` header must
be present, non-empty, and the id of a stored user. -/
def authenticateToken (users : List User) (header : Option String) :
    Except (Response Unit) User :=
  match header with
  | none => .error (.error 401 "Token de acesso requerido")
  | some userId =>
    if userId = "" then .error (.error 401 "Token de acesso requerido")
    else
      match users.find? (fun u => u.id == userId) with
      | none => .error (.error 401 "Usuário não encontrado")
      | some user => .ok user

/-! ## Activity routes (server.js) -/

/-- Handler of `PUT /api/activities/:id/development` (server.js, lines
313-332), after `authenticateToken` has set `req.user.id = userId`.
Returns the response and the activity collection stored afterwards. The
index returned by `findIndex` is always in range, so the inner `none` case
is never taken. -/
def putActivityDevelopment (activities : List Activity) (id userId : String) :
    Response Activity × List Activity :=
  match findIndex (fun a => a.id == id) activities with
  | none => (.error 404 "Atividade não encontrada", activities)
  | some activityIndex =>
    match activities[activityIndex]? with
    | none => (.error 404 "Atividade não encontrada", activities)
    | some activity =>
      if activity.inDevelopment && activity.developmentBy != some userId then
        (.error 403 "Esta atividade já está sendo desenvolvida por outro usuário",
          activities)
      else
        let a1 : Activity := { activity with inDevelopment := !activity.inDevelopment }
        let a2 : Activity :=
          { a1 with developmentBy := if a1.inDevelopment then some userId else none }
        (.json a2, activities.set activityIndex a2)

/-- Toggle requests on activity `id` by the users of `schedule`, handled one
after another; returns the responses in handling order and the collection
stored at the end. The handler (server.js, lines 313-332) reads with
`readFileSync`, writes with `writeFileSync` and awaits nothing in between,
and `authenticateToken` calls `next()` in the same tick, so each request is
handled to completion before the next one starts: the ways two simultaneous
requests can interleave are the two orders of handling them. -/
def runToggles (store : List Activity) (id : String) :
    List String → List (Response Activity) × List Activity
  | [] => ([], store)
  | userId :: rest =>
    let r := putActivityDevelopment store id userId
    let rs := runToggles r.2 id rest
    (r.1 :: rs.1, rs.2)

/-- A request body for `PUT /api/activities/:id`: each key is either absent
(`none`) or present with a value; for the nullable fields the value may be
`null` (`some none`). -/
structure ActivityBody where
  id : Option String := none
  projectId : Option String := none
  title : Option String := none
  description : Option String := none
  column : Option String := none
  assignedTo : Option (Option String) := none
  inDevelopment : Option Bool := none
  developmentBy : Option (Option String) := none
  createdAt : Option String := none
  order : Option Nat := none
deriving DecidableEq, Repr

/-- The object spread `\x7b ...activity, ...body \x7d`: every key present in the
body overrides the stored value. -/
def spread (a : Activity) (b : ActivityBody) : Activity :=
  { id := b.id.getD a.id
    projectId := b.projectId.getD a.projectId
    title := b.title.getD a.title
    description := b.description.getD a.description
    column := b.column.getD a.column
    assignedTo := b.assignedTo.getD a.assignedTo
    inDevelopment := b.inDevelopment.getD a.inDevelopment
    developmentBy := b.developmentBy.getD a.developmentBy
    createdAt := b.createdAt.getD a.createdAt
    order := b.order.getD a.order }

/-- Handler of `PUT /api/activities/:id` (server.js, lines 286-297). The
authenticated user id is not consulted by the handler body. The inner `none`
case is never taken, as in `putActivityDevelopment`. -/
def putActivity (activities : List Activity) (id : String) (_userId : String)
    (body : ActivityBody) : Response Activity × List Activity :=
  match findIndex (fun a => a.id == id) activities with
  | none => (.error 404 "Atividade não encontrada", activities)
  | some activityIndex =>
    match activities[activityIndex]? with
    | none => (.error 404 "Atividade não encontrada", activities)
    | some activity =>
      let merged := spread activity body
      (.json merged, activities.set activityIndex merged)

/-- The JavaScript `x || d` on an optional string: `undefined`, `null` and
the empty string are falsy. -/
def orElse (x : Option String) (d : String) : String :=
  match x with
  | none => d
  | some s => if s = "" then d else s

/-- Body of `POST /api/projects/:projectId/activities`. -/
structure NewActivityBody where
  title : String
  description : Option String := none
  column : Option String := none
deriving DecidableEq, Repr

/-- Handler of `POST /api/projects/:projectId/activities` (server.js, lines
264-284). `now` is `Date.now()` and `iso` is `new Date().toISOString()`. -/
def postActivity (activities : List Activity) (projectId : String)
    (_userId : String) (body : NewActivityBody) (now : Nat) (iso : String) :
    Response Activity × List Activity :=
  let col := orElse body.column "todo"
  let newActivity : Activity :=
    { id := toString now
      projectId := projectId
      title := body.title
      description := orElse body.description ""
      column := col
      assignedTo := none
      inDevelopment := false
      developmentBy := none
      createdAt := iso
      order := (activities.filter
        (fun a => a.projectId == projectId && a.column == col)).length }
  (.json newActivity, activities ++ [newActivity])

/-- The users written by `initializeDatabase` (server.js, lines 27-49). -/
def seedUsers : List User :=
  [ { id := "1", username := "admin", password := "admin123",
      name := "Administrador", email := "admin@empresa.com" },
    { id := "2", username := "user1", password := "user123",
      name := "João Silva", email := "joao@empresa.com" },
    { id := "3", username := "user2", password := "user123",
      name := "Maria Santos", email := "maria@empresa.com" } ]

/-- The first activity written by `initializeDatabase` (server.js, lines
73-84), claimed by user 2; `iso` is the creation timestamp. -/
def seedActivity1 (iso : String) : Activity :=
  { id := "1", projectId := "1", title := "Criar tela de login",
    description := "Desenvolver interface de autenticação",
    column := "progress", assignedTo := some "2", inDevelopment := true,
    developmentBy := some "2", createdAt := iso, order := 0 }

/-- The second activity written by `initializeDatabase` (server.js, lines
85-96), unclaimed. -/
def seedActivity2 (iso : String) : Activity :=
  { id := "2", projectId := "1", title := "Configurar banco de dados",
    description := "Setup inicial do banco",
    column := "todo", assignedTo := none, inDevelopment := false,
    developmentBy := none, createdAt := iso, order := 1 }

/-- The activity collection written by `initializeDatabase` (server.js, lines
72-97). -/
def seedActivities (iso : String) : List Activity :=
  [seedActivity1 iso, seedActivity2 iso]

/-! ## Column management (public/script.js)

JavaScript arrays hold references to objects, and `ColumnManager.save`
pushes the object returned by `find` itself, so one column object can sit at
several positions of `AppState.currentProject.columns`. The client state
therefore keeps the column objects in a heap and the column array as a list
of references (heap positions). -/

/-- A column object: `id`, `name` and `order`. -/
structure Column where
  id : String
  name : String
  order : Nat
deriving DecidableEq, Repr

/-- The part of `AppState` the column manager reads and writes: the column
objects, `AppState.currentProject.columns` as references to them, and
`AppState.activities`. -/
structure AppState where
  heap : List Column
  columns : List Nat
  activities : List Activity
deriving DecidableEq, Repr

/-- Assignment to a property of the object behind reference `r`. -/
def assign (heap : List Column) (r : Nat) (f : Column → Column) : List Column :=
  match heap[r]? with
  | some c => heap.set r (f c)
  | none => heap

/-- The contents of `AppState.currentProject.columns`: each reference read
through the heap. -/
def AppState.currentColumns (s : AppState) : List Column :=
  s.columns.filterMap (fun r => s.heap[r]?)

/-- The client state right after a project with columns `cols` has been
fetched: `JSON.parse` gives every array position its own object. -/
def AppState.ofProject (cols : List Column) (activities : List Activity) : AppState :=
  { heap := cols, columns := List.range cols.length, activities := activities }

/-- The column template of a new project (server.js, lines 184-188). -/
def defaultColumns : List Column :=
  [ { id := "todo", name := "A Fazer", order := 0 },
    { id := "progress", name := "Em Progresso", order := 1 },
    { id := "done", name := "Finalizado", order := 2 } ]

/-- The loop `cols.forEach((col, index) => col.order = index)`, started at
index `k`. -/
def renumber (k : Nat) : List Nat → List Column → List Column
  | [], heap => heap
  | r :: rs, heap => renumber (k + 1) rs (assign heap r (fun c => { c with order := k }))

/-- One `.column-item` element of the columns dialog: its `data-column`
attribute and the trimmed value of its name input. -/
structure ColumnItem where
  column : String
  newName : String
deriving DecidableEq, Repr

/-- What `ColumnManager.save` reads back from the dialog that
`ColumnManager.render` has written (script.js, lines 570-580): one item per
array position, carrying the column id and its current name. The markup
holds ids and names unescaped inside double quotes and `save` trims the
name, so this is the dialog only for plain ids and names: no double quote,
no ampersand, no blank at either end. -/
def renderItems (s : AppState) : List ColumnItem :=
  s.currentColumns.map (fun c => { column := c.id, newName := c.name })

/-- `AppState.currentProject.columns.find(c => c.id === columnId)`; the result
is the reference of the first match. -/
def findColumn (s : AppState) (heap : List Column) (columnId : String) : Option Nat :=
  s.columns.find? (fun r =>
    match heap[r]? with
    | some c => c.id == columnId
    | none => false)

/-- The `columnItems.forEach` loop of `ColumnManager.save` (script.js, lines
624-633): returns the heap after the renames and `updatedColumns`. -/
def collectItems (s : AppState) :
    List ColumnItem → List Column → List Nat → List Column × List Nat
  | [], heap, updated => (heap, updated)
  | item :: rest, heap, updated =>
    match findColumn s heap item.column with
    | some r =>
      if item.newName ≠ "" then
        collectItems s rest (assign heap r (fun c => { c with name := item.newName }))
          (updated ++ [r])
      else collectItems s rest heap updated
    | none => collectItems s rest heap updated

namespace ColumnManager

/-- `ColumnManager.add` (script.js, lines 582-591); `now` is `Date.now()`. -/
def add (s : AppState) (now : Nat) : AppState :=
  let newColumn : Column :=
    { id := "col_" ++ toString now
      name := "Nova Coluna"
      order := s.columns.length }
  { s with heap := s.heap ++ [newColumn], columns := s.columns ++ [s.heap.length] }

/-- `ColumnManager.remove` (script.js, lines 593-614). The second component
is the text passed to `alert`, if any. -/
def remove (s : AppState) (columnId : String) : AppState × Option String :=
  let hasActivities := s.activities.any (fun a => a.column == columnId)
  if hasActivities then
    (s, some "Não é possível remover uma coluna que possui atividades.")
  else if s.columns.length ≤ 1 then
    (s, some "Deve haver pelo menos uma coluna no projeto.")
  else
    let columns := s.columns.filter (fun r =>
      match s.heap[r]? with
      | some c => c.id != columnId
      | none => true)
    ({ s with heap := renumber 0 columns s.heap, columns := columns }, none)

/-- `ColumnManager.save` (script.js, lines 616-649), up to the request that
sends the new column array to the server. `items` are the `.column-item`
elements in document order. -/
def save (s : AppState) (items : List ColumnItem) : AppState × Option String :=
  let (heap, updatedColumns) := collectItems s items s.heap []
  let heap := renumber 0 updatedColumns heap
  if updatedColumns.length = 0 then
    ({ s with heap := heap }, some "Deve haver pelo menos uma coluna no projeto.")
  else
    ({ s with heap := heap, columns := updatedColumns }, none)

end ColumnManager

/-- A column operation of the dialog. -/
inductive ColumnOp where
  | add (now : Nat)
  | remove (columnId : String)
  | save (items : List ColumnItem)
deriving DecidableEq, Repr

/-- Apply one column operation to the client state. -/
def ColumnOp.apply (s : AppState) : ColumnOp → AppState
  | .add now => ColumnManager.add s now
  | .remove columnId => (ColumnManager.remove s columnId).1
  | .save items => (ColumnManager.save s items).1

/-- Apply a sequence of column operations, first to last. -/
def runOps (s : AppState) (ops : List ColumnOp) : AppState :=
  ops.foldl ColumnOp.apply s

/-- The `order` fields of the current columns, in array order. -/
def AppState.orders (s : AppState) : List Nat :=
  s.currentColumns.map (·.order)

/-- Every position of the column array holds its own allocated object: no
reference occurs twice and each points into the heap. -/
def AppState.Unaliased (s : AppState) : Prop :=
  s.columns.Nodup ∧ ∀ r ∈ s.columns, r < s.heap.length

instance (s : AppState) : Decidable s.Unaliased := by
  unfold AppState.Unaliased
  infer_instance

/-- The column orders are exactly `0 .. n-1` in array order. -/
def AppState.Contiguous (s : AppState) : Prop :=
  s.orders = List.range s.columns.length

instance (s : AppState) : Decidable s.Contiguous := by
  unfold AppState.Contiguous
  infer_instance

/-- `Activity.moveToColumn` (script.js, lines 544-560), run by the user
`userId` against the server collection `store`: the update request is sent
with body `column: newColumn`; when the response is OK the first loaded
activity with that id gets the new column, otherwise (`API.request` throws)
the client state is left as it was. Returns the server collection and the
client state afterwards. -/
def Activity.moveToColumn (store : List Activity) (s : AppState) (userId : String)
    (activityId newColumn : String) : List Activity × AppState :=
  match putActivity store activityId userId { column := some newColumn } with
  | (.json _, store') =>
    match findIndex (fun a => a.id == activityId) s.activities with
    | some i =>
      match s.activities[i]? with
      | some activity =>
        (store', { s with activities := s.activities.set i { activity with column := newColumn } })
      | none => (store', s)
    | none => (store', s)
  | (.error _ _, store') => (store', s)

/-! ## Project routes (server.js) -/

/-- A project record as stored in `projects.json` (server.js, lines 54-67 and
176-189). -/
structure Project where
  id : String
  name : String
  status : String
  description : String
  members : List String
  createdBy : String
  createdAt : String
  columns : List Column
deriving DecidableEq, Repr

/-- The project written by `initializeDatabase` (server.js, lines 54-67). -/
def seedProject (iso : String) : Project :=
  { id := "1", name := "Sistema de Vendas", status := "Desenvolvendo",
    description := "Desenvolvimento do novo sistema de vendas",
    members := ["1", "2"], createdBy := "1", createdAt := iso,
    columns := defaultColumns }

/-- Handler of `PUT /api/projects/:id/columns` (server.js, lines 239-255);
`columns` is `req.body.columns`. The inner `none` case is never taken. -/
def putProjectColumns (projects : List Project) (id userId : String)
    (columns : List Column) : Response Project × List Project :=
  match findIndex (fun p => p.id == id) projects with
  | none => (.error 404 "Projeto não encontrado", projects)
  | some projectIndex =>
    match projects[projectIndex]? with
    | none => (.error 404 "Projeto não encontrado", projects)
    | some project =>
      if !project.members.contains userId && project.createdBy != userId then
        (.error 403 "Sem permissão para editar este projeto", projects)
      else
        let updated : Project := { project with columns := columns }
        (.json updated, projects.set projectIndex updated)

/-- Handler of `DELETE /api/projects/:id` (server.js, lines 214-236). Returns
the response (its body is the message), the project collection and the
activity collection stored afterwards. The inner `none` case is never
taken. -/
def deleteProject (projects : List Project) (activities : List Activity)
    (id userId : String) : Response String × List Project × List Activity :=
  match findIndex (fun p => p.id == id) projects with
  | none => (.error 404 "Projeto não encontrado", projects, activities)
  | some projectIndex =>
    match projects[projectIndex]? with
    | none => (.error 404 "Projeto não encontrado", projects, activities)
    | some project =>
      if project.createdBy != userId then
        (.error 403 "Apenas o criador pode excluir o projeto", projects, activities)
      else
        let filteredActivities := activities.filter (fun a => a.projectId != id)
        (.json "Projeto excluído com sucesso", projects.eraseIdx projectIndex,
          filteredActivities)

/-! ## Board predicates -/

/-- The column invariant of a project: at least one column, pairwise
distinct ids, orders `0 .. n-1` in list order. -/
def ColumnsInvariant (columns : List Column) : Prop :=
  1 ≤ columns.length ∧ (columns.map (·.id)).Nodup ∧
    columns.map (·.order) = List.range columns.length

instance (columns : List Column) : Decidable (ColumnsInvariant columns) := by
  unfold ColumnsInvariant
  infer_instance

/-- No orphaned activity on the server: every stored activity belongs to a
stored project and sits in one of its columns. -/
def NoOrphans (projects : List Project) (activities : List Activity) : Prop :=
  ∀ a ∈ activities, ∃ p ∈ projects, p.id = a.projectId ∧ ∃ c ∈ p.columns, c.id = a.column

instance (projects : List Project) (activities : List Activity) :
    Decidable (NoOrphans projects activities) := by
  unfold NoOrphans
  infer_instance

/-- No orphaned activity on the client: every loaded activity sits in one of
the current columns. -/
def AppState.NoOrphans (s : AppState) : Prop :=
  ∀ a ∈ s.activities, ∃ c ∈ s.currentColumns, c.id = a.column

instance (s : AppState) : Decidable s.NoOrphans := by
  unfold AppState.NoOrphans
  infer_instance

end Board


namespace Board

/-! ## Lemmas on `findIndex` -/

/-- The first element satisfying `p` is found at its position. -/
theorem findIndex_first {α : Type} (p : α → Bool) (pre post : List α) (a : α)
    (hpre : ∀ b ∈ pre, p b = false) (ha : p a = true) :
    findIndex p (pre ++ a :: post) = some pre.length := by
  induction pre with
  | nil => simp [findIndex, ha]
  | cons x xs ih =>
    have hx : p x = false := hpre x (List.mem_cons_self x xs)
    have hxs : ∀ b ∈ xs, p b = false := fun b hb => hpre b (List.mem_cons_of_mem x hb)
    simp [findIndex, hx, ih hxs]

/-- No index is found exactly when no element satisfies `p`. -/
theorem findIndex_eq_none {α : Type} (p : α → Bool) (l : List α) :
    findIndex p l = none ↔ ∀ a ∈ l, p a = false := by
  induction l with
  | nil => simp [findIndex]
  | cons x xs ih =>
    by_cases hx : p x = true
    · simp [findIndex, hx]
    · have hx' : p x = false := by simpa using hx
      simp [findIndex, hx', ih]

/-- A found index splits the list at the first element satisfying `p`. -/
theorem findIndex_eq_some {α : Type} (p : α → Bool) (l : List α) (i : Nat)
    (h : findIndex p l = some i) :
    ∃ pre a post, l = pre ++ a :: post ∧ pre.length = i ∧ p a = true ∧
      ∀ b ∈ pre, p b = false := by
  induction l generalizing i with
  | nil => simp [findIndex] at h
  | cons x xs ih =>
    by_cases hx : p x = true
    · simp [findIndex, hx] at h
      exact ⟨[], x, xs, by simp, by simpa using h, hx, by simp⟩
    · have hx' : p x = false := by simpa using hx
      simp only [findIndex, hx', Bool.false_eq_true, if_false, Option.map_eq_some'] at h
      obtain ⟨j, hj, rfl⟩ := h
      obtain ⟨pre, a, post, hl, hlen, ha, hpre⟩ := ih j hj
      refine ⟨x :: pre, a, post, by simp [hl], by simp [hlen], ha, ?_⟩
      intro b hb
      rcases List.mem_cons.mp hb with rfl | hb
      · exact hx'
      · exact hpre b hb

/-- Reading the position right after `pre`. -/
theorem getElem?_first {α : Type} (pre post : List α) (a : α) :
    (pre ++ a :: post)[pre.length]? = some a := by
  induction pre with
  | nil => simp
  | cons x xs ih => simpa using ih

/-- Writing the position right after `pre`. -/
theorem set_first {α : Type} (pre post : List α) (a b : α) :
    (pre ++ a :: post).set pre.length b = pre ++ b :: post := by
  simp

/-- The id test of the handlers is false on every activity before the first
one carrying the requested id. -/
theorem idTest_false (pre : List Activity) (id : String)
    (hpre : ∀ b ∈ pre, b.id ≠ id) :
    ∀ b ∈ pre, (fun a : Activity => a.id == id) b = false := by
  intro b hb
  simpa using hpre b hb

/-- The claim toggle, computed at the first activity carrying the id. -/
theorem putActivityDevelopment_at (pre post : List Activity) (a : Activity)
    (id u : String) (hpre : ∀ b ∈ pre, b.id ≠ id) (ha : a.id = id) :
    putActivityDevelopment (pre ++ a :: post) id u =
      if a.inDevelopment && a.developmentBy != some u then
        (.error 403 "Esta atividade já está sendo desenvolvida por outro usuário",
          pre ++ a :: post)
      else
        (.json { a with
            inDevelopment := !a.inDevelopment
            developmentBy := if !a.inDevelopment then some u else none },
          pre ++ { a with
            inDevelopment := !a.inDevelopment
            developmentBy := if !a.inDevelopment then some u else none } :: post) := by
  have hidx := findIndex_first (fun a : Activity => a.id == id) pre post a
    (idTest_false pre id hpre) (by simpa using ha)
  unfold putActivityDevelopment
  rw [hidx]
  simp only [getElem?_first, set_first]

/-! ## Claim toggle -/

/-- C1: a claim toggle by user `u` on an existing activity (the first stored
one carrying the requested id): when the activity is unclaimed
(`inDevelopment` false) it becomes claimed by `u`, when it is claimed by `u`
it becomes unclaimed with `developmentBy` null; in both cases the response
is the updated activity, which also replaces the old one in the store. -/
theorem toggle_claims_or_releases (pre post : List Activity) (a : Activity)
    (id u : String) (hpre : ∀ b ∈ pre, b.id ≠ id) (ha : a.id = id) :
    (a.inDevelopment = false →
      putActivityDevelopment (pre ++ a :: post) id u =
        (.json { a with inDevelopment := true, developmentBy := some u },
          pre ++ { a with inDevelopment := true, developmentBy := some u } :: post)) ∧
    (a.inDevelopment = true → a.developmentBy = some u →
      putActivityDevelopment (pre ++ a :: post) id u =
        (.json { a with inDevelopment := false, developmentBy := none },
          pre ++ { a with inDevelopment := false, developmentBy := none } :: post)) := by
  constructor
  · intro h
    rw [putActivityDevelopment_at pre post a id u hpre ha]
    simp [h]
  · intro h hby
    rw [putActivityDevelopment_at pre post a id u hpre ha]
    simp [h, hby]

/-- Witness for C1: user 1 toggles the unclaimed seed activity 2. -/
theorem toggle_claims_or_releases_witness :
    putActivityDevelopment (seedActivities "t") "2" "1" =
      (.json { seedActivity2 "t" with inDevelopment := true, developmentBy := some "1" },
        [seedActivity1 "t",
          { seedActivity2 "t" with inDevelopment := true, developmentBy := some "1" }]) :=
  (toggle_claims_or_releases [seedActivity1 "t"] [] (seedActivity2 "t") "2" "1"
    (by decide) rfl).1 rfl

/-- C2, evaluated on the seeded database: activity 1 is claimed by user 2;
the toggle by user 3 is answered with status 403 and a body that holds the
refusal message only. The response is not the activity, changed or
unchanged. -/
theorem toggle_conflict_returns_no_activity :
    (seedActivities "t")[0]? = some (seedActivity1 "t") ∧
    (seedActivity1 "t").id = "1" ∧
    (seedActivity1 "t").inDevelopment = true ∧
    (seedActivity1 "t").developmentBy = some "2" ∧
    (putActivityDevelopment (seedActivities "t") "1" "3").1 =
      .error 403 "Esta atividade já está sendo desenvolvida por outro usuário" ∧
    (putActivityDevelopment (seedActivities "t") "1" "3").1 ≠ .json (seedActivity1 "t") ∧
    ¬ ∃ b, (putActivityDevelopment (seedActivities "t") "1" "3").1 = .json b := by
  refine ⟨?_, ?_, ?_, ?_, ?_, ?_, ?_⟩
  · decide
  · decide
  · decide
  · decide
  · decide
  · decide
  · rintro ⟨b, hb⟩
    have h : (putActivityDevelopment (seedActivities "t") "1" "3").1 =
        .error 403 "Esta atividade já está sendo desenvolvida por outro usuário" := by
      decide
    rw [h] at hb
    cases hb

/-- C2, amended: when the activity is claimed by `u`, a toggle by any other
user `v` is answered with status 403 and the refusal message, a response
that carries no activity, and the stored collection is exactly the one
before the call, so the activity is still the same record claimed by
`u`. -/
theorem toggle_by_other_user_conflict (pre post : List Activity) (a : Activity)
    (id u v : String) (hpre : ∀ b ∈ pre, b.id ≠ id) (ha : a.id = id)
    (hdev : a.inDevelopment = true) (hby : a.developmentBy = some u) (hv : v ≠ u) :
    putActivityDevelopment (pre ++ a :: post) id v =
      (.error 403 "Esta atividade já está sendo desenvolvida por outro usuário",
        pre ++ a :: post) ∧
    (putActivityDevelopment (pre ++ a :: post) id v).1.status = 403 ∧
    (putActivityDevelopment (pre ++ a :: post) id v).2[pre.length]? = some a ∧
    (∀ b, (putActivityDevelopment (pre ++ a :: post) id v).1 ≠ .json b) := by
  have h : putActivityDevelopment (pre ++ a :: post) id v =
      (.error 403 "Esta atividade já está sendo desenvolvida por outro usuário",
        pre ++ a :: post) := by
    rw [putActivityDevelopment_at pre post a id v hpre ha]
    have hne : u ≠ v := fun e => hv e.symm
    simp [hdev, hby, hne]
  refine ⟨h, ?_, ?_, ?_⟩
  · rw [h]; rfl
  · rw [h]; exact getElem?_first pre post a
  · intro b hb
    rw [h] at hb
    cases hb

/-- Witness for C2: user 3 toggles seed activity 1, which user 2 holds. -/
theorem toggle_by_other_user_conflict_witness :
    putActivityDevelopment (seedActivities "t") "1" "3" =
      (.error 403 "Esta atividade já está sendo desenvolvida por outro usuário",
        seedActivities "t") :=
  (toggle_by_other_user_conflict [] [seedActivity2 "t"] (seedActivity1 "t")
    "1" "2" "3" (by simp) rfl rfl rfl (by decide)).1

/-- C3, evaluated on the seeded database: activity 1 is claimed by user 2.
User 3 is authenticated; the toggle route refuses user 3 with status 403,
yet the update route `PUT /api/activities/1` with body
`inDevelopment: false, developmentBy: null`, sent by the same user 3, is
answered with the activity unclaimed and stores it unclaimed. -/
theorem update_by_other_user_clears_claim :
    (∃ user, authenticateToken seedUsers (some "3") = .ok user ∧ user.id = "3") ∧
    (putActivityDevelopment (seedActivities "t") "1" "3").1.status = 403 ∧
    (putActivityDevelopment (seedActivities "t") "1" "3").2 = seedActivities "t" ∧
    (seedActivities "t")[0]?.map (fun a => (a.id, a.inDevelopment, a.developmentBy))
      = some ("1", true, some "2") ∧
    (putActivity (seedActivities "t") "1" "3"
        { inDevelopment := some false, developmentBy := some none }).1.status = 200 ∧
    (putActivity (seedActivities "t") "1" "3"
        { inDevelopment := some false, developmentBy := some none }).2[0]?.map
      (fun a => (a.id, a.inDevelopment, a.developmentBy)) = some ("1", false, none) := by
  refine ⟨⟨_, rfl, rfl⟩, ?_, ?_, ?_, ?_, ?_⟩ <;> decide

/-- C4: starting from an unclaimed activity (`inDevelopment` false,
`developmentBy` null), a toggle by `u` succeeds and claims it for `u`; a
second toggle by `u` succeeds, returns the original activity and leaves the
stored collection equal to the initial one; a second toggle by another user
`v` instead is refused with status 403 and leaves the activity claimed by
`u`. -/
theorem toggle_round_trip (pre post : List Activity) (a : Activity)
    (id u v : String) (hpre : ∀ b ∈ pre, b.id ≠ id) (ha : a.id = id)
    (hdev : a.inDevelopment = false) (hby : a.developmentBy = none) (hv : v ≠ u) :
    putActivityDevelopment (pre ++ a :: post) id u =
      (.json { a with inDevelopment := true, developmentBy := some u },
        pre ++ { a with inDevelopment := true, developmentBy := some u } :: post) ∧
    putActivityDevelopment (putActivityDevelopment (pre ++ a :: post) id u).2 id u =
      (.json a, pre ++ a :: post) ∧
    putActivityDevelopment (putActivityDevelopment (pre ++ a :: post) id u).2 id v =
      (.error 403 "Esta atividade já está sendo desenvolvida por outro usuário",
        pre ++ { a with inDevelopment := true, developmentBy := some u } :: post) := by
  have h1 : putActivityDevelopment (pre ++ a :: post) id u =
      (.json { a with inDevelopment := true, developmentBy := some u },
        pre ++ { a with inDevelopment := true, developmentBy := some u } :: post) := by
    rw [putActivityDevelopment_at pre post a id u hpre ha]
    simp [hdev]
  have hback : ({ a with inDevelopment := false, developmentBy := none } : Activity) = a := by
    cases a
    simp only [Activity.mk.injEq, true_and] at hdev hby ⊢
    simp_all
  have hne : u ≠ v := fun e => hv e.symm
  refine ⟨h1, ?_, ?_⟩
  · rw [h1]
    show putActivityDevelopment
      (pre ++ { a with inDevelopment := true, developmentBy := some u } :: post) id u = _
    rw [putActivityDevelopment_at pre post
      { a with inDevelopment := true, developmentBy := some u } id u hpre ha]
    simp [hback]
  · rw [h1]
    show putActivityDevelopment
      (pre ++ { a with inDevelopment := true, developmentBy := some u } :: post) id v = _
    rw [putActivityDevelopment_at pre post
      { a with inDevelopment := true, developmentBy := some u } id v hpre ha]
    simp [hne]

/-- Witness for C4: user 1 claims and releases seed activity 2. -/
theorem toggle_round_trip_witness :
    putActivityDevelopment (putActivityDevelopment (seedActivities "t") "2" "1").2 "2" "1" =
      (.json (seedActivity2 "t"), seedActivities "t") :=
  (toggle_round_trip [seedActivity1 "t"] [] (seedActivity2 "t") "2" "1" "3"
    (by decide) rfl rfl rfl (by decide)).2.1

/-- C5: a successful claim toggle replaces exactly one stored activity, the
first one carrying the requested id, by the returned one, which differs from
it at most in `inDevelopment` and `developmentBy`; every other stored
activity keeps its value and position, and the collection keeps its
length. -/
theorem toggle_frame (store store' : List Activity) (id u : String) (r : Activity)
    (h : putActivityDevelopment store id u = (.json r, store')) :
    ∃ pre a post, store = pre ++ a :: post ∧ store' = pre ++ r :: post ∧
      a.id = id ∧ (∀ b ∈ pre, b.id ≠ id) ∧
      r.id = a.id ∧ r.projectId = a.projectId ∧ r.title = a.title ∧
      r.description = a.description ∧ r.column = a.column ∧
      r.assignedTo = a.assignedTo ∧ r.createdAt = a.createdAt ∧
      r.order = a.order ∧ store'.length = store.length := by
  cases hidx : findIndex (fun a : Activity => a.id == id) store with
  | none =>
    simp [putActivityDevelopment, hidx] at h
  | some i =>
    obtain ⟨pre, a, post, hl, _, ha, hpre⟩ := findIndex_eq_some _ store i hidx
    have ha' : a.id = id := by simpa using ha
    have hpre' : ∀ b ∈ pre, b.id ≠ id := fun b hb => by simpa using hpre b hb
    subst hl
    rw [putActivityDevelopment_at pre post a id u hpre' ha'] at h
    split at h
    · simp at h
    · simp only [Prod.mk.injEq, Response.json.injEq] at h
      obtain ⟨hr, hs⟩ := h
      subst hr
      refine ⟨pre, a, post, rfl, hs.symm, ha', hpre', rfl, rfl, rfl, rfl, rfl, rfl, rfl,
        rfl, ?_⟩
      rw [← hs]
      simp

/-- Witness for C5: the toggle of seed activity 2 by user 1. -/
theorem toggle_frame_witness :
    ∃ pre a post, seedActivities "t" = pre ++ a :: post ∧
      (putActivityDevelopment (seedActivities "t") "2" "1").2 =
        pre ++ ({ seedActivity2 "t" with
          inDevelopment := true, developmentBy := some "1" } : Activity) :: post ∧
      a.id = "2" :=
  (toggle_frame (seedActivities "t")
    (putActivityDevelopment (seedActivities "t") "2" "1").2 "2" "1"
    { seedActivity2 "t" with inDevelopment := true, developmentBy := some "1" }
    rfl).imp fun _ h => h.imp fun _ h => h.imp fun _ h => ⟨h.1, h.2.1, h.2.2.1⟩

/-- C6: the claim toggle answers with status 404 exactly when no stored
activity carries the requested id, and in that case the response is the
not-found message and the stored collection is the one before the call. -/
theorem toggle_not_found_iff (store : List Activity) (id u : String) :
    ((putActivityDevelopment store id u).1.status = 404 ↔ ∀ a ∈ store, a.id ≠ id) ∧
    ((putActivityDevelopment store id u).1.status = 404 →
      putActivityDevelopment store id u =
        (.error 404 "Atividade não encontrada", store)) := by
  cases hidx : findIndex (fun a : Activity => a.id == id) store with
  | none =>
    have hall : ∀ a ∈ store, a.id ≠ id := by
      intro a ha
      have := (findIndex_eq_none _ store).mp hidx a ha
      simpa using this
    have hres : putActivityDevelopment store id u =
        (.error 404 "Atividade não encontrada", store) := by
      simp [putActivityDevelopment, hidx]
    have hstat : (putActivityDevelopment store id u).1.status = 404 := by
      rw [hres]; rfl
    exact ⟨⟨fun _ => hall, fun _ => hstat⟩, fun _ => hres⟩
  | some i =>
    obtain ⟨pre, a, post, hl, _, ha, hpre⟩ := findIndex_eq_some _ store i hidx
    have ha' : a.id = id := by simpa using ha
    have hpre' : ∀ b ∈ pre, b.id ≠ id := fun b hb => by simpa using hpre b hb
    subst hl
    have hstat : (putActivityDevelopment (pre ++ a :: post) id u).1.status ≠ 404 := by
      rw [putActivityDevelopment_at pre post a id u hpre' ha']
      split <;> simp [Response.status]
    refine ⟨⟨fun h => absurd h hstat, fun h => ?_⟩, fun h => absurd h hstat⟩
    exact absurd ha' (h a (by simp))

/-! ## Lemmas on the column heap -/

/-- A property assignment allocates nothing. -/
theorem assign_length (heap : List Column) (r : Nat) (f : Column → Column) :
    (assign heap r f).length = heap.length := by
  unfold assign
  split <;> simp

/-- A property assignment leaves the other objects alone. -/
theorem assign_getElem?_ne (heap : List Column) (r r' : Nat) (f : Column → Column)
    (h : r ≠ r') : (assign heap r f)[r']? = heap[r']? := by
  unfold assign
  split
  · simp [List.getElem?_set, h]
  · rfl

/-- A property assignment applies `f` to the object it addresses. -/
theorem assign_getElem?_eq (heap : List Column) (r : Nat) (f : Column → Column) :
    (assign heap r f)[r]? = heap[r]?.map f := by
  unfold assign
  split
  · next c hc =>
    have hlt : r < heap.length := by
      by_contra hge
      rw [List.getElem?_eq_none (by omega)] at hc
      cases hc
    simp [List.getElem?_set, hlt, hc]
  · next hc => simp [hc]

/-- The numbering loop allocates nothing. -/
theorem renumber_length (k : Nat) (rs : List Nat) (heap : List Column) :
    (renumber k rs heap).length = heap.length := by
  induction rs generalizing k heap with
  | nil => rfl
  | cons r rs ih => simp [renumber, ih, assign_length]

/-- The numbering loop leaves objects outside its array alone. -/
theorem renumber_getElem?_not_mem (k : Nat) (rs : List Nat) (heap : List Column)
    (r : Nat) (h : r ∉ rs) : (renumber k rs heap)[r]? = heap[r]? := by
  induction rs generalizing k heap with
  | nil => rfl
  | cons x xs ih =>
    have hx : x ≠ r := fun e => h (e ▸ List.mem_cons_self x xs)
    have hxs : r ∉ xs := fun hm => h (List.mem_cons_of_mem x hm)
    simp only [renumber]
    rw [ih _ _ hxs, assign_getElem?_ne _ _ _ _ hx]

/-- Over an array without repeated references the numbering loop writes
`k, k+1, ...` in array order. -/
theorem renumber_orders (k : Nat) (rs : List Nat) (heap : List Column)
    (hnd : rs.Nodup) (hv : ∀ r ∈ rs, r < heap.length) :
    (rs.filterMap (fun r => (renumber k rs heap)[r]?)).map (·.order)
      = List.range' k rs.length := by
  induction rs generalizing k heap with
  | nil => rfl
  | cons x xs ih =>
    have hx : x ∉ xs := (List.nodup_cons.mp hnd).1
    have hxs : xs.Nodup := (List.nodup_cons.mp hnd).2
    have hxlt : x < heap.length := hv x (List.mem_cons_self x xs)
    obtain ⟨c, hc⟩ : ∃ c, heap[x]? = some c := ⟨heap[x], List.getElem?_eq_getElem hxlt⟩
    have hhead : (renumber k (x :: xs) heap)[x]? = some { c with order := k } := by
      simp only [renumber]
      rw [renumber_getElem?_not_mem _ _ _ _ hx, assign_getElem?_eq, hc]
      rfl
    have htail := ih (k + 1) (assign heap x (fun c => { c with order := k })) hxs
      (fun r hr => by rw [assign_length]; exact hv r (List.mem_cons_of_mem x hr))
    simp only [List.filterMap_cons, hhead, List.map_cons, List.length_cons, List.range'_succ]
    exact congrArg (List.cons k) htail

/-- Reading valid references yields one object per reference. -/
theorem filterMap_getElem?_length (heap : List Column) (rs : List Nat)
    (hv : ∀ r ∈ rs, r < heap.length) :
    (rs.filterMap (fun r => heap[r]?)).length = rs.length := by
  induction rs with
  | nil => rfl
  | cons x xs ih =>
    have hxlt : x < heap.length := hv x (List.mem_cons_self x xs)
    have hx : heap[x]? = some heap[x] := List.getElem?_eq_getElem hxlt
    simp only [List.filterMap_cons, hx, List.length_cons]
    rw [ih (fun r hr => hv r (List.mem_cons_of_mem x hr))]

/-- An unaliased state shows one column per array position. -/
theorem currentColumns_length (s : AppState) (h : s.Unaliased) :
    s.currentColumns.length = s.columns.length :=
  filterMap_getElem?_length s.heap s.columns h.2

/-- A freshly fetched project is unaliased. -/
theorem ofProject_unaliased (cols : List Column) (acts : List Activity) :
    (AppState.ofProject cols acts).Unaliased := by
  refine ⟨List.nodup_range _, ?_⟩
  intro r hr
  simpa [AppState.ofProject] using hr

/-- Reading the references `0 .. n-1` gives the first `n` objects. -/
theorem filterMap_range_getElem? (l : List Column) (n : Nat) :
    (List.range n).filterMap (fun r => l[r]?) = l.take n := by
  induction n with
  | zero => simp
  | succ n ih =>
    rw [List.range_succ, List.filterMap_append, ih, List.take_succ]
    cases h : l[n]? <;> simp [h]

/-- A freshly fetched project shows exactly the fetched columns. -/
theorem ofProject_currentColumns (cols : List Column) (acts : List Activity) :
    (AppState.ofProject cols acts).currentColumns = cols := by
  simp only [AppState.currentColumns, AppState.ofProject]
  rw [filterMap_range_getElem?, List.take_length]

/-- `ColumnManager.add` keeps the state unaliased and the orders contiguous. -/
theorem add_preserves (s : AppState) (now : Nat) (hu : s.Unaliased) (hc : s.Contiguous) :
    (ColumnManager.add s now).Unaliased ∧ (ColumnManager.add s now).Contiguous := by
  obtain ⟨hnd, hv⟩ := hu
  have hfresh : s.heap.length ∉ s.columns := fun hm => Nat.lt_irrefl _ (hv _ hm)
  refine ⟨⟨?_, ?_⟩, ?_⟩
  · simp only [ColumnManager.add]
    exact List.nodup_append.mpr ⟨hnd, List.nodup_singleton _, by
      intro a ha hb
      rw [List.mem_singleton] at hb
      exact hfresh (hb ▸ ha)⟩
  · intro r hr
    simp only [ColumnManager.add, List.mem_append, List.mem_singleton, List.length_append,
      List.length_singleton] at hr ⊢
    rcases hr with hr | rfl
    · exact Nat.lt_succ_of_lt (hv r hr)
    · exact Nat.lt_succ_self _
  · have hold : s.columns.filterMap (fun r => (s.heap ++
        [({ id := "col_" ++ toString now, name := "Nova Coluna",
            order := s.columns.length } : Column)])[r]?) =
        s.columns.filterMap (fun r => s.heap[r]?) := by
      apply List.filterMap_congr
      intro r hr
      exact List.getElem?_append_left (hv r hr)
    unfold AppState.Contiguous AppState.orders at hc ⊢
    simp only [ColumnManager.add, AppState.currentColumns, List.filterMap_append, hold,
      List.map_append, List.length_append, List.length_singleton, List.range_succ]
    simp only [AppState.currentColumns] at hc
    rw [hc]
    simp

/-- `ColumnManager.remove` either leaves the state alone or, with at least two
columns, filters the array and renumbers it. -/
theorem remove_cases (s : AppState) (columnId : String) :
    (ColumnManager.remove s columnId).1 = s ∨
    (2 ≤ s.columns.length ∧
      (ColumnManager.remove s columnId).1 =
        { s with
          heap := renumber 0 (s.columns.filter (fun r =>
            match s.heap[r]? with
            | some c => c.id != columnId
            | none => true)) s.heap
          columns := s.columns.filter (fun r =>
            match s.heap[r]? with
            | some c => c.id != columnId
            | none => true) }) := by
  by_cases h1 : s.activities.any (fun a => a.column == columnId) = true
  · left
    simp [ColumnManager.remove, h1]
  · by_cases h2 : s.columns.length ≤ 1
    · left
      simp [ColumnManager.remove, h1, h2]
    · right
      refine ⟨by omega, ?_⟩
      simp [ColumnManager.remove, h1, h2]

/-- `ColumnManager.remove` keeps the state unaliased. -/
theorem remove_preserves_unaliased (s : AppState) (columnId : String)
    (hu : s.Unaliased) : (ColumnManager.remove s columnId).1.Unaliased := by
  rcases remove_cases s columnId with h | ⟨_, h⟩
  · rw [h]; exact hu
  · rw [h]
    refine ⟨hu.1.filter _, ?_⟩
    intro r hr
    simp only [renumber_length]
    exact hu.2 r (List.mem_of_mem_filter hr)

/-- `ColumnManager.remove` keeps the state unaliased and the orders
contiguous. -/
theorem remove_preserves (s : AppState) (columnId : String)
    (hu : s.Unaliased) (hc : s.Contiguous) :
    (ColumnManager.remove s columnId).1.Unaliased ∧
      (ColumnManager.remove s columnId).1.Contiguous := by
  rcases remove_cases s columnId with h | ⟨_, h⟩
  · rw [h]; exact ⟨hu, hc⟩
  · rw [h]
    obtain ⟨hnd, hv⟩ := hu
    have hnd' := hnd.filter (fun r =>
      match s.heap[r]? with
      | some c => c.id != columnId
      | none => true)
    have hv' : ∀ r ∈ s.columns.filter (fun r =>
        match s.heap[r]? with
        | some c => c.id != columnId
        | none => true), r < s.heap.length :=
      fun r hr => hv r (List.mem_of_mem_filter hr)
    refine ⟨⟨hnd', ?_⟩, ?_⟩
    · intro r hr
      simp only [renumber_length]
      exact hv' r hr
    · unfold AppState.Contiguous AppState.orders AppState.currentColumns
      simp only
      rw [renumber_orders 0 _ s.heap hnd' hv', List.range_eq_range']

/-- A column found by id is a member of the array and carries that id. -/
theorem findColumn_some (s : AppState) (heap : List Column) (columnId : String) (r : Nat)
    (h : findColumn s heap columnId = some r) :
    r ∈ s.columns ∧ ∃ c, heap[r]? = some c ∧ c.id = columnId := by
  unfold findColumn at h
  refine ⟨List.mem_of_find?_eq_some h, ?_⟩
  have hp := List.find?_some h
  cases hc : heap[r]? with
  | none => simp [hc] at hp
  | some c => exact ⟨c, rfl, by simpa [hc] using hp⟩

/-- Renaming a column changes no id. -/
theorem assign_name_id (heap : List Column) (r r' : Nat) (newName : String) (c' : Column)
    (h : (assign heap r (fun c => { c with name := newName }))[r']? = some c') :
    ∃ c0, heap[r']? = some c0 ∧ c0.id = c'.id := by
  by_cases hr : r = r'
  · subst hr
    rw [assign_getElem?_eq] at h
    cases hc : heap[r]? with
    | none => simp [hc] at h
    | some c0 =>
      refine ⟨c0, rfl, ?_⟩
      simp only [hc, Option.map_some', Option.some.injEq] at h
      rw [← h]
  · rw [assign_getElem?_ne _ _ _ _ hr] at h
    exact ⟨c', h, rfl⟩

/-- The collecting loop of `save`, run on items with pairwise distinct ids:
`updatedColumns` stays free of repeated references, nothing is allocated,
and when nothing is pushed nothing is renamed. -/
theorem collectItems_spec (s : AppState) (items : List ColumnItem) (heap : List Column)
    (updated : List Nat)
    (hitems : (items.map (·.column)).Nodup)
    (hupd : updated.Nodup)
    (hvalid : ∀ r ∈ updated, r < heap.length)
    (hsep : ∀ r ∈ updated, ∀ c, heap[r]? = some c → c.id ∉ items.map (·.column)) :
    (collectItems s items heap updated).2.Nodup ∧
    (collectItems s items heap updated).1.length = heap.length ∧
    (∀ r ∈ (collectItems s items heap updated).2, r < heap.length) ∧
    updated.length ≤ (collectItems s items heap updated).2.length ∧
    ((collectItems s items heap updated).2.length = updated.length →
      (collectItems s items heap updated).1 = heap) := by
  induction items generalizing heap updated with
  | nil => exact ⟨hupd, rfl, hvalid, le_refl _, fun _ => rfl⟩
  | cons item rest ih =>
    have hrest : (rest.map (·.column)).Nodup := by
      simp only [List.map_cons, List.nodup_cons] at hitems
      exact hitems.2
    have hitem : item.column ∉ rest.map (·.column) := by
      simp only [List.map_cons, List.nodup_cons] at hitems
      exact hitems.1
    have hsep' : ∀ r ∈ updated, ∀ c, heap[r]? = some c → c.id ∉ rest.map (·.column) := by
      intro r hr c hc hm
      exact hsep r hr c hc (by simp only [List.map_cons]; exact List.mem_cons_of_mem _ hm)
    cases hf : findColumn s heap item.column with
    | none =>
      have he : collectItems s (item :: rest) heap updated = collectItems s rest heap updated := by
        simp [collectItems, hf]
      rw [he]
      exact ih heap updated hrest hupd hvalid hsep'
    | some r =>
      by_cases hn : item.newName = ""
      · have he : collectItems s (item :: rest) heap updated =
            collectItems s rest heap updated := by
          simp [collectItems, hf, hn]
        rw [he]
        exact ih heap updated hrest hupd hvalid hsep'
      · have he : collectItems s (item :: rest) heap updated =
            collectItems s rest (assign heap r (fun c => { c with name := item.newName }))
              (updated ++ [r]) := by
          simp [collectItems, hf, hn]
        rw [he]
        obtain ⟨_, c, hc, hcid⟩ := findColumn_some s heap item.column r hf
        have hrlt : r < heap.length := by
          by_contra hge
          rw [List.getElem?_eq_none (by omega)] at hc
          cases hc
        have hrnot : r ∉ updated := by
          intro hm
          apply hsep r hm c hc
          simp [hcid]
        have hupd1 : (updated ++ [r]).Nodup :=
          List.nodup_append.mpr ⟨hupd, List.nodup_singleton _, by
            intro a ha hb
            rw [List.mem_singleton] at hb
            exact hrnot (hb ▸ ha)⟩
        have hvalid1 : ∀ r' ∈ updated ++ [r],
            r' < (assign heap r (fun c => { c with name := item.newName })).length := by
          intro r' hr'
          rw [assign_length]
          rcases List.mem_append.mp hr' with h | h
          · exact hvalid r' h
          · rw [List.mem_singleton] at h
            exact h ▸ hrlt
        have hsep1 : ∀ r' ∈ updated ++ [r], ∀ c',
            (assign heap r (fun c => { c with name := item.newName }))[r']? = some c' →
            c'.id ∉ rest.map (·.column) := by
          intro r' hr' c' hc'
          obtain ⟨c0, hc0, hid⟩ := assign_name_id heap r r' item.newName c' hc'
          rw [← hid]
          rcases List.mem_append.mp hr' with h | h
          · exact hsep' r' h c0 hc0
          · rw [List.mem_singleton] at h
            subst h
            rw [hc] at hc0
            cases hc0
            rw [hcid]
            exact hitem
        obtain ⟨h1, h2, h3, h4, _⟩ := ih _ _ hrest hupd1 hvalid1 hsep1
        rw [assign_length] at h2
        refine ⟨h1, h2, ?_, ?_, ?_⟩
        · intro r' hr'
          have := h3 r' hr'
          rwa [assign_length] at this
        · simp only [List.length_append, List.length_singleton] at h4
          omega
        · intro hlen
          simp only [List.length_append, List.length_singleton] at h4
          omega

/-- `ColumnManager.save` on items with pairwise distinct ids keeps the state
unaliased and the orders contiguous. -/
theorem save_preserves (s : AppState) (items : List ColumnItem)
    (hitems : (items.map (·.column)).Nodup)
    (hu : s.Unaliased) (hc : s.Contiguous) :
    (ColumnManager.save s items).1.Unaliased ∧ (ColumnManager.save s items).1.Contiguous := by
  obtain ⟨h1, h2, h3, _, h5⟩ := collectItems_spec s items s.heap [] hitems List.nodup_nil
    (by simp) (by simp)
  by_cases he : (collectItems s items s.heap []).2.length = 0
  · have hheap : (collectItems s items s.heap []).1 = s.heap := h5 (by simpa using he)
    have hnil : (collectItems s items s.heap []).2 = [] := List.length_eq_zero.mp he
    have hs : (ColumnManager.save s items).1 = s := by
      simp [ColumnManager.save, he, hnil, hheap, renumber]
    rw [hs]
    exact ⟨hu, hc⟩
  · have hs : (ColumnManager.save s items).1 =
        { s with
          heap := renumber 0 (collectItems s items s.heap []).2 (collectItems s items s.heap []).1
          columns := (collectItems s items s.heap []).2 } := by
      simp [ColumnManager.save, he]
    rw [hs]
    have h3' : ∀ r ∈ (collectItems s items s.heap []).2,
        r < (collectItems s items s.heap []).1.length := by
      intro r hr
      rw [h2]
      exact h3 r hr
    refine ⟨⟨h1, ?_⟩, ?_⟩
    · intro r hr
      simp only [renumber_length]
      exact h3' r hr
    · unfold AppState.Contiguous AppState.orders AppState.currentColumns
      simp only
      rw [renumber_orders 0 _ _ h1 h3', List.range_eq_range']

/-- A sequence of column operations whose saves submit pairwise distinct ids
keeps the state unaliased and the orders contiguous. -/
theorem runOps_preserves (ops : List ColumnOp) (s : AppState)
    (hops : ∀ items, ColumnOp.save items ∈ ops → (items.map (·.column)).Nodup)
    (hu : s.Unaliased) (hc : s.Contiguous) :
    (runOps s ops).Unaliased ∧ (runOps s ops).Contiguous := by
  induction ops generalizing s with
  | nil => exact ⟨hu, hc⟩
  | cons op rest ih =>
    have hrest : ∀ items, ColumnOp.save items ∈ rest → (items.map (·.column)).Nodup :=
      fun items hm => hops items (List.mem_cons_of_mem _ hm)
    have hstep : (op.apply s).Unaliased ∧ (op.apply s).Contiguous := by
      cases op with
      | add now => exact add_preserves s now hu hc
      | remove columnId => exact remove_preserves s columnId hu hc
      | save items =>
        exact save_preserves s items (hops items (List.mem_cons_self _ _)) hu hc
    exact ih (op.apply s) hrest hstep.1 hstep.2


/-- A duplicate-free list whose entries all equal `c` has at most one entry. -/
theorem length_le_one_of_all_eq (l : List String) (c : String)
    (h : ∀ x ∈ l, x = c) (hn : l.Nodup) : l.length ≤ 1 := by
  match l, h, hn with
  | [], _, _ => simp
  | [_], _, _ => simp
  | a :: b :: t, h, hn =>
    have ha : a = c := h a (by simp)
    have hb : b = c := h b (by simp)
    have hab : a ∉ b :: t := (List.nodup_cons.mp hn).1
    exact absurd (by rw [ha, hb]; exact List.mem_cons_self _ _) hab

/-- When the column ids are pairwise distinct, `ColumnManager.remove` never
empties a project that has a column. -/
theorem remove_keeps_a_column (s : AppState) (columnId : String)
    (hu : s.Unaliased) (hids : (s.currentColumns.map (·.id)).Nodup)
    (hne : 1 ≤ s.currentColumns.length) :
    1 ≤ (ColumnManager.remove s columnId).1.currentColumns.length := by
  rcases remove_cases s columnId with h | ⟨h2, h⟩
  · rw [h]; exact hne
  · have hu' := (remove_preserves_unaliased s columnId hu)
    rw [currentColumns_length _ hu', h]
    simp only
    by_contra hlt
    have hnil : s.columns.filter (fun r =>
        match s.heap[r]? with
        | some c => c.id != columnId
        | none => true) = [] := List.length_eq_zero.mp (by omega)
    have hall : ∀ x ∈ s.currentColumns.map (·.id), x = columnId := by
      intro x hx
      obtain ⟨c, hc, rfl⟩ := List.mem_map.mp hx
      obtain ⟨r, hr, hrc⟩ := List.mem_filterMap.mp hc
      have := List.filter_eq_nil_iff.mp hnil r hr
      simpa [hrc] using this
    have := length_le_one_of_all_eq _ columnId hall hids
    rw [List.length_map, currentColumns_length s hu] at this
    omega

/-! ## Column management -/

/-- C8: when some loaded activity references the column, `ColumnManager.remove`
is rejected with the has-activities alert and the client state, hence the
column array with its ids, names, orders and sequence, is left as it was. -/
theorem remove_rejected_when_referenced (s : AppState) (columnId : String)
    (h : ∃ a ∈ s.activities, a.column = columnId) :
    ColumnManager.remove s columnId =
      (s, some "Não é possível remover uma coluna que possui atividades.") ∧
    (ColumnManager.remove s columnId).1.currentColumns = s.currentColumns := by
  have hany : s.activities.any (fun a => a.column == columnId) = true := by
    obtain ⟨a, ha, hc⟩ := h
    exact List.any_eq_true.mpr ⟨a, ha, by simpa using hc⟩
  have hres : ColumnManager.remove s columnId =
      (s, some "Não é possível remover uma coluna que possui atividades.") := by
    simp [ColumnManager.remove, hany]
  exact ⟨hres, by rw [hres]⟩

/-- Witness for C8: the seed activities sit in `todo` and `progress`. -/
theorem remove_rejected_when_referenced_witness :
    ColumnManager.remove (AppState.ofProject defaultColumns (seedActivities "t")) "todo" =
      (AppState.ofProject defaultColumns (seedActivities "t"),
        some "Não é possível remover uma coluna que possui atividades.") :=
  (remove_rejected_when_referenced
    (AppState.ofProject defaultColumns (seedActivities "t")) "todo"
    ⟨seedActivity2 "t", by simp [AppState.ofProject, seedActivities], rfl⟩).1

/-- C9, evaluated: a project with two columns that share the id `col_5` and
no activities passes both guards of `ColumnManager.remove`, and the filter
drops both columns, leaving none and raising no alert. The state is reached
from the default template by two `add` calls in the same millisecond
followed by the removal of the three template columns. -/
theorem remove_can_empty_project :
    (AppState.ofProject
        [{ id := "col_5", name := "A", order := 0 },
         { id := "col_5", name := "B", order := 1 }] []).currentColumns.length = 2 ∧
    (ColumnManager.remove (AppState.ofProject
        [{ id := "col_5", name := "A", order := 0 },
         { id := "col_5", name := "B", order := 1 }] []) "col_5").1.currentColumns = [] ∧
    (ColumnManager.remove (AppState.ofProject
        [{ id := "col_5", name := "A", order := 0 },
         { id := "col_5", name := "B", order := 1 }] []) "col_5").2 = none ∧
    (runOps (AppState.ofProject defaultColumns [])
        [.add 5, .add 5, .remove "todo", .remove "progress", .remove "done"]).currentColumns =
      [{ id := "col_5", name := "Nova Coluna", order := 0 },
       { id := "col_5", name := "Nova Coluna", order := 1 }] ∧
    (runOps (AppState.ofProject defaultColumns [])
        [.add 5, .add 5, .remove "todo", .remove "progress", .remove "done",
          .remove "col_5"]).currentColumns = [] := by
  refine ⟨?_, ?_, ?_, ?_, ?_⟩ <;> decide

/-- C10, evaluated: from the default template (orders 0, 1, 2), two `add`
calls in the same millisecond give five columns with orders 0 to 4, and
saving the dialog as rendered then leaves the orders 0, 1, 2, 4, 4: both
items with id `col_5` resolve to the same column object, which is pushed
twice and numbered twice. The same happens to a fetched project whose two
columns share an id. -/
theorem save_breaks_column_orders :
    (AppState.ofProject defaultColumns []).orders = [0, 1, 2] ∧
    (runOps (AppState.ofProject defaultColumns []) [.add 5, .add 5]).orders
      = [0, 1, 2, 3, 4] ∧
    ColumnManager.save (runOps (AppState.ofProject defaultColumns []) [.add 5, .add 5])
        (renderItems (runOps (AppState.ofProject defaultColumns []) [.add 5, .add 5]))
      = (runOps (AppState.ofProject defaultColumns [])
          [.add 5, .add 5, .save (renderItems
            (runOps (AppState.ofProject defaultColumns []) [.add 5, .add 5]))], none) ∧
    (runOps (AppState.ofProject defaultColumns [])
        [.add 5, .add 5, .save (renderItems
          (runOps (AppState.ofProject defaultColumns []) [.add 5, .add 5]))]).orders
      = [0, 1, 2, 4, 4] ∧
    (ColumnManager.save (AppState.ofProject
        [{ id := "a", name := "A", order := 0 }, { id := "a", name := "B", order := 1 }] [])
      (renderItems (AppState.ofProject
        [{ id := "a", name := "A", order := 0 },
         { id := "a", name := "B", order := 1 }] []))).1.orders = [1, 1] := by
  refine ⟨?_, ?_, ?_, ?_, ?_⟩ <;> decide

/-! ## What the column operations do keep -/

/-- With at most one column, `ColumnManager.remove` is rejected with an
alert and the client state is left as it was. -/
theorem remove_last_column_rejected (s : AppState) (columnId : String)
    (h : s.columns.length ≤ 1) :
    (ColumnManager.remove s columnId).1 = s ∧
      (ColumnManager.remove s columnId).2.isSome = true := by
  by_cases h1 : s.activities.any (fun a => a.column == columnId) = true
  · simp [ColumnManager.remove, h1]
  · simp [ColumnManager.remove, h1, h]

/-- Starting from a fetched project whose orders are `0 .. n-1`, every
sequence of column operations in which each save submits pairwise distinct
column ids ends with orders `0 .. m-1`, `m` the number of columns. -/
theorem column_orders_preserved (cols : List Column) (acts : List Activity)
    (ops : List ColumnOp)
    (h0 : cols.map (·.order) = List.range cols.length)
    (hops : ∀ items, ColumnOp.save items ∈ ops → (items.map (·.column)).Nodup) :
    (runOps (AppState.ofProject cols acts) ops).orders =
      List.range (runOps (AppState.ofProject cols acts) ops).currentColumns.length := by
  have hu := ofProject_unaliased cols acts
  have hc : (AppState.ofProject cols acts).Contiguous := by
    unfold AppState.Contiguous AppState.orders
    rw [ofProject_currentColumns, h0]
    simp [AppState.ofProject]
  obtain ⟨hu', hc'⟩ := runOps_preserves ops _ hops hu hc
  rw [currentColumns_length _ hu']
  exact hc'

/-! ## Server routes on projects and activities -/

/-- The update route, computed at the first activity carrying the id. -/
theorem putActivity_at (pre post : List Activity) (a : Activity) (id u : String)
    (body : ActivityBody) (hpre : ∀ b ∈ pre, b.id ≠ id) (ha : a.id = id) :
    putActivity (pre ++ a :: post) id u body =
      (.json (spread a body), pre ++ spread a body :: post) := by
  have hidx := findIndex_first (fun a : Activity => a.id == id) pre post a
    (idTest_false pre id hpre) (by simpa using ha)
  unfold putActivity
  rw [hidx]
  simp only [getElem?_first, set_first]

/-- The update route answers 404 and writes nothing when no activity carries
the id. -/
theorem putActivity_not_found (store : List Activity) (id u : String)
    (body : ActivityBody) (h : ∀ b ∈ store, b.id ≠ id) :
    putActivity store id u body = (.error 404 "Atividade não encontrada", store) := by
  have hidx : findIndex (fun a : Activity => a.id == id) store = none :=
    (findIndex_eq_none _ store).mpr (fun b hb => by simpa using h b hb)
  simp [putActivity, hidx]

/-- A body carrying only `column` changes only the column. -/
theorem spread_column (a : Activity) (c : String) :
    spread a { column := some c } = { a with column := c } := rfl

/-- The column route, computed at the first project carrying the id. -/
theorem putProjectColumns_at (pre post : List Project) (p : Project) (id u : String)
    (columns : List Column) (hpre : ∀ q ∈ pre, q.id ≠ id) (hp : p.id = id) :
    putProjectColumns (pre ++ p :: post) id u columns =
      if !p.members.contains u && p.createdBy != u then
        (.error 403 "Sem permissão para editar este projeto", pre ++ p :: post)
      else
        (.json { p with columns := columns }, pre ++ { p with columns := columns } :: post) := by
  have hidx := findIndex_first (fun q : Project => q.id == id) pre post p
    (fun q hq => by simpa using hpre q hq) (by simpa using hp)
  unfold putProjectColumns
  rw [hidx]
  simp only [getElem?_first, set_first]

/-- C11, evaluated on the seeded project: user 2, a member, replaces the
column set by the empty list and the route stores a project without
columns; it likewise stores two columns that share their id and their
order. -/
theorem replace_columns_breaks_invariant :
    ColumnsInvariant (seedProject "t").columns ∧
    (putProjectColumns [seedProject "t"] "1" "2" []).1.status = 200 ∧
    (putProjectColumns [seedProject "t"] "1" "2" []).2.map (·.columns) = [[]] ∧
    (putProjectColumns [seedProject "t"] "1" "2"
        [⟨"a", "A", 7⟩, ⟨"a", "B", 7⟩]).1.status = 200 ∧
    (putProjectColumns [seedProject "t"] "1" "2"
        [⟨"a", "A", 7⟩, ⟨"a", "B", 7⟩]).2.map (·.columns)
      = [[⟨"a", "A", 7⟩, ⟨"a", "B", 7⟩]] ∧
    ¬ ColumnsInvariant [] ∧ ¬ ColumnsInvariant [⟨"a", "A", 7⟩, ⟨"a", "B", 7⟩] := by
  refine ⟨?_, ?_, ?_, ?_, ?_, ?_, ?_⟩ <;> decide

/-- C11, amended: a request accepted from a member or the creator stores the
submitted column list as it is. The response is the project with its
columns replaced by the submitted list, that project takes the place of the
old one, and so the stored project has the column invariant exactly when
the submitted list has it. -/
theorem replace_columns_stores_verbatim (pre post : List Project) (p : Project)
    (id u : String) (columns : List Column)
    (hpre : ∀ q ∈ pre, q.id ≠ id) (hp : p.id = id)
    (hauth : u ∈ p.members ∨ p.createdBy = u) :
    putProjectColumns (pre ++ p :: post) id u columns =
      (.json { p with columns := columns }, pre ++ { p with columns := columns } :: post) ∧
    ((putProjectColumns (pre ++ p :: post) id u columns).2[pre.length]?.map (·.columns)
      = some columns) ∧
    (∀ q, (putProjectColumns (pre ++ p :: post) id u columns).2[pre.length]? = some q →
      (ColumnsInvariant q.columns ↔ ColumnsInvariant columns)) := by
  have h : putProjectColumns (pre ++ p :: post) id u columns =
      (.json { p with columns := columns },
        pre ++ { p with columns := columns } :: post) := by
    rw [putProjectColumns_at pre post p id u columns hpre hp]
    rcases hauth with hm | hc
    · simp [hm]
    · simp [hc]
  refine ⟨h, ?_, ?_⟩
  · rw [h]
    simp only [getElem?_first, Option.map_some']
  · intro q hq
    rw [h] at hq
    simp only [getElem?_first, Option.some.injEq] at hq
    rw [← hq]

/-- Witness for C11: user 2 submits the template in reverse order. -/
theorem replace_columns_stores_verbatim_witness :
    putProjectColumns [seedProject "t"] "1" "2" defaultColumns.reverse =
      (.json { seedProject "t" with columns := defaultColumns.reverse },
        [{ seedProject "t" with columns := defaultColumns.reverse }]) :=
  (replace_columns_stores_verbatim [] [] (seedProject "t") "1" "2" defaultColumns.reverse
    (by simp) rfl (Or.inl (by decide))).1

/-- The client move, computed when both the stored and the loaded collection
hold an activity with the id. -/
theorem moveToColumn_at (pre post pre' post' : List Activity) (a b : Activity)
    (s : AppState) (id u c : String)
    (hpre : ∀ x ∈ pre, x.id ≠ id) (ha : a.id = id)
    (hs : s.activities = pre' ++ b :: post')
    (hpre' : ∀ x ∈ pre', x.id ≠ id) (hb : b.id = id) :
    Activity.moveToColumn (pre ++ a :: post) s u id c =
      (pre ++ { a with column := c } :: post,
        { s with activities := pre' ++ { b with column := c } :: post' }) := by
  have hidx := findIndex_first (fun a : Activity => a.id == id) pre' post' b
    (idTest_false pre' id hpre') (by simpa using hb)
  unfold Activity.moveToColumn
  rw [putActivity_at pre post a id u _ hpre ha, spread_column]
  simp only [hs, hidx, getElem?_first, set_first]

/-- C13, evaluated on the seeded database: `nowhere` is not a column of
project 1, yet moving activity 2 there is answered with status 200 and the
stored activity sits in `nowhere` afterwards; the client follows. -/
theorem move_to_unknown_column_accepted :
    (seedActivity2 "t").projectId = (seedProject "t").id ∧
    "nowhere" ∉ (seedProject "t").columns.map (·.id) ∧
    (putActivity (seedActivities "t") "2" "1" { column := some "nowhere" }).1.status = 200 ∧
    (putActivity (seedActivities "t") "2" "1" { column := some "nowhere" }).2.map (·.column)
      = ["progress", "nowhere"] ∧
    (seedActivities "t").map (·.column) = ["progress", "todo"] ∧
    (Activity.moveToColumn (seedActivities "t")
        (AppState.ofProject defaultColumns (seedActivities "t")) "1" "2" "nowhere").2.activities.map
      (·.column) = ["progress", "nowhere"] := by
  refine ⟨?_, ?_, ?_, ?_, ?_, ?_⟩ <;> decide

/-- C13, amended: a move names its target column freely. Whatever the stored
projects are, and also when `c` is the id of no column of the project of the
activity, the update with body `column: c` is answered with status 200 and
the first activity carrying the id is stored with column `c`; the route
fails, with status 404 and the collection untouched, only when no stored
activity carries the id. -/
theorem move_accepts_any_column (projects : List Project) (pre post : List Activity)
    (a : Activity) (id u c : String)
    (hpre : ∀ b ∈ pre, b.id ≠ id) (ha : a.id = id)
    (hunknown : ∀ p ∈ projects, p.id = a.projectId → ∀ col ∈ p.columns, col.id ≠ c) :
    (putActivity (pre ++ a :: post) id u { column := some c }).1.status = 200 ∧
    (putActivity (pre ++ a :: post) id u { column := some c }).2[pre.length]?.map (·.column)
      = some c ∧
    (∀ p ∈ projects, p.id = a.projectId →
      ∀ col ∈ p.columns, ∀ b,
        (putActivity (pre ++ a :: post) id u { column := some c }).2[pre.length]? = some b →
        col.id ≠ b.column) ∧
    (∀ store : List Activity, (∀ b ∈ store, b.id ≠ id) →
      putActivity store id u { column := some c } =
        (.error 404 "Atividade não encontrada", store)) := by
  have h := putActivity_at pre post a id u { column := some c } hpre ha
  rw [spread_column] at h
  refine ⟨?_, ?_, ?_, ?_⟩
  · rw [h]; rfl
  · rw [h]; simp only [getElem?_first, Option.map_some']
  · intro p hp hid col hcol b hb
    rw [h] at hb
    simp only [getElem?_first, Option.some.injEq] at hb
    rw [← hb]
    exact hunknown p hp hid col hcol
  · intro store hstore
    exact putActivity_not_found store id u _ hstore

/-- Witness for C13: activity 2 of the seeded project is moved to `nowhere`. -/
theorem move_accepts_any_column_witness :
    (putActivity (seedActivities "t") "2" "1" { column := some "nowhere" }).1.status = 200 :=
  (move_accepts_any_column [seedProject "t"] [seedActivity1 "t"] [] (seedActivity2 "t")
    "2" "1" "nowhere" (by decide) rfl (by decide)).1

/-- C14: a move of an existing activity to column `c` (body `column: c` only)
is answered with the activity whose column is `c` and whose other fields,
`order` and the claim included, are the stored ones; that record replaces the
old one in place and every other stored activity keeps its value and
position. The client then does the same to its loaded copy and leaves its
columns alone. -/
theorem move_replaces_only_column (pre post pre' post' : List Activity)
    (a b : Activity) (s : AppState) (id u c : String)
    (hpre : ∀ x ∈ pre, x.id ≠ id) (ha : a.id = id)
    (hs : s.activities = pre' ++ b :: post')
    (hpre' : ∀ x ∈ pre', x.id ≠ id) (hb : b.id = id) :
    putActivity (pre ++ a :: post) id u { column := some c } =
      (.json { a with column := c }, pre ++ { a with column := c } :: post) ∧
    ({ a with column := c } : Activity).order = a.order ∧
    ({ a with column := c } : Activity).inDevelopment = a.inDevelopment ∧
    ({ a with column := c } : Activity).developmentBy = a.developmentBy ∧
    Activity.moveToColumn (pre ++ a :: post) s u id c =
      (pre ++ { a with column := c } :: post,
        { s with activities := pre' ++ { b with column := c } :: post' }) := by
  refine ⟨?_, rfl, rfl, rfl, moveToColumn_at pre post pre' post' a b s id u c hpre ha hs hpre' hb⟩
  rw [putActivity_at pre post a id u _ hpre ha, spread_column]

/-- Witness for C14: user 1 moves seed activity 2 to `done`. -/
theorem move_replaces_only_column_witness :
    putActivity (seedActivities "t") "2" "1" { column := some "done" } =
      (.json { seedActivity2 "t" with column := "done" },
        [seedActivity1 "t", { seedActivity2 "t" with column := "done" }]) :=
  (move_replaces_only_column [seedActivity1 "t"] [] [seedActivity1 "t"] []
    (seedActivity2 "t") (seedActivity2 "t")
    (AppState.ofProject defaultColumns (seedActivities "t")) "2" "1" "done"
    (by decide) rfl rfl (by decide) rfl).1

/-- Whenever the delete route answers with status 200, the activity
collection it stores is the filtered one. -/
theorem deleteProject_ok (projects : List Project) (activities : List Activity)
    (id u : String) (h : (deleteProject projects activities id u).1.status = 200) :
    (deleteProject projects activities id u).2.2 =
      activities.filter (fun a => a.projectId != id) := by
  unfold deleteProject at h ⊢
  split at h
  · simp [Response.status] at h
  · split at h
    · simp [Response.status] at h
    · split at h
      · simp [Response.status] at h
      · next hcond => simp only [hcond]; rfl

/-- C15: after a successful project delete the stored activity collection
is the previous one without the activities whose `projectId` is the deleted
id: an activity is stored afterwards exactly when it was stored before and
belongs to another project, none with the deleted `projectId` survives, and
the survivors keep their values and their relative order. -/
theorem delete_project_cascades (projects : List Project) (activities : List Activity)
    (id u : String) (h : (deleteProject projects activities id u).1.status = 200) :
    (deleteProject projects activities id u).2.2 =
      activities.filter (fun a => decide (a.projectId ≠ id)) ∧
    (∀ a, a ∈ (deleteProject projects activities id u).2.2 ↔
      a ∈ activities ∧ a.projectId ≠ id) ∧
    (∀ a ∈ (deleteProject projects activities id u).2.2, a.projectId ≠ id) ∧
    ((deleteProject projects activities id u).2.2).Sublist activities := by
  have hf := deleteProject_ok projects activities id u h
  have hpred : (fun a : Activity => a.projectId != id) =
      (fun a : Activity => decide (a.projectId ≠ id)) := by
    funext a
    by_cases hid : a.projectId = id <;> simp [hid]
  refine ⟨by rw [hf, hpred], ?_, ?_, ?_⟩
  · intro a
    rw [hf]
    simp [List.mem_filter]
  · intro a ha
    rw [hf] at ha
    simpa using (List.mem_filter.mp ha).2
  · rw [hf]
    exact List.filter_sublist activities

/-- Witness for C15: the creator, user 1, deletes the seeded project. -/
theorem delete_project_cascades_witness :
    (deleteProject [seedProject "t"] (seedActivities "t") "1" "1").2.2 =
      (seedActivities "t").filter (fun a => decide (a.projectId ≠ "1")) :=
  (delete_project_cascades [seedProject "t"] (seedActivities "t") "1" "1" (by decide)).1

/-- C16, evaluated: project 1 with the columns `progress`, `done` (the
template after `todo` was removed) has first column `progress`, yet an
activity created in it without a column is answered and stored with column
`todo`, the id of none of its columns. -/
theorem create_default_is_not_first_column :
    ({ seedProject "t" with columns := [⟨"progress", "Em Progresso", 0⟩,
        ⟨"done", "Finalizado", 1⟩] } : Project).columns.head?.map (·.id) = some "progress" ∧
    (postActivity [] "1" "1" { title := "x" } 7 "t").1.status = 200 ∧
    (postActivity [] "1" "1" { title := "x" } 7 "t").2.map (fun a => (a.projectId, a.column))
      = [("1", "todo")] ∧
    "todo" ∉ ({ seedProject "t" with columns := [⟨"progress", "Em Progresso", 0⟩,
        ⟨"done", "Finalizado", 1⟩] } : Project).columns.map (·.id) := by
  refine ⟨?_, ?_, ?_, ?_⟩ <;> decide

/-- C16, amended: creation without a column stores the new activity, at the
end of the collection, with the fixed column id `todo`, the first column of
the project template; that is the first column of a project exactly when
the first column of the project has id `todo`. -/
theorem create_defaults_to_todo (activities : List Activity) (projectId u : String)
    (body : NewActivityBody) (now : Nat) (iso : String) (h : body.column = none) :
    ∃ a, postActivity activities projectId u body now iso = (.json a, activities ++ [a]) ∧
      a.column = "todo" ∧ a.projectId = projectId ∧
      defaultColumns.head?.map (·.id) = some a.column ∧
      ∀ p : Project, (p.columns.head?.map (·.id) = some a.column ↔
        p.columns.head?.map (·.id) = some "todo") := by
  refine ⟨_, rfl, ?_, rfl, ?_, ?_⟩
  · simp [h, orElse]
  · simp [h, orElse, defaultColumns]
  · intro p
    simp [h, orElse]

/-- Witness for C16: an activity created in project 1 with a title only. -/
theorem create_defaults_to_todo_witness :
    ∃ a, postActivity (seedActivities "t") "1" "1" { title := "x" } 7 "t" =
        (.json a, seedActivities "t" ++ [a]) ∧ a.column = "todo" :=
  (create_defaults_to_todo (seedActivities "t") "1" "1" { title := "x" } 7 "t" rfl).imp
    fun _ h => ⟨h.1, h.2.1⟩

/-- C19: the two claim fields agree after the operations that own them. A
created activity has `inDevelopment` false and `developmentBy` null; and
whenever a claim toggle by `u` succeeds, whatever the stored activity was,
the returned and stored activity has `inDevelopment` true exactly when its
`developmentBy` is non-null, and then `developmentBy` is `u`. -/
theorem claim_fields_agree (store store' : List Activity) (id u : String) (r : Activity)
    (h : putActivityDevelopment store id u = (.json r, store'))
    (activities : List Activity) (projectId v : String) (body : NewActivityBody)
    (now : Nat) (iso : String) :
    (∃ a, postActivity activities projectId v body now iso = (.json a, activities ++ [a]) ∧
      a.inDevelopment = false ∧ a.developmentBy = none) ∧
    (r.inDevelopment = true ↔ r.developmentBy ≠ none) ∧
    (r.inDevelopment = true → r.developmentBy = some u) ∧
    r ∈ store' := by
  refine ⟨⟨_, rfl, rfl, rfl⟩, ?_⟩
  cases hidx : findIndex (fun a : Activity => a.id == id) store with
  | none => simp [putActivityDevelopment, hidx] at h
  | some i =>
    obtain ⟨pre, a, post, hl, _, ha, hpre⟩ := findIndex_eq_some _ store i hidx
    have ha' : a.id = id := by simpa using ha
    have hpre' : ∀ b ∈ pre, b.id ≠ id := fun b hb => by simpa using hpre b hb
    subst hl
    rw [putActivityDevelopment_at pre post a id u hpre' ha'] at h
    split at h
    · simp at h
    · simp only [Prod.mk.injEq, Response.json.injEq] at h
      obtain ⟨hr, hs⟩ := h
      subst hr
      subst hs
      refine ⟨?_, ?_, by simp⟩
      · cases hd : a.inDevelopment <;> simp [hd]
      · cases hd : a.inDevelopment <;> simp [hd]

/-- Witness for C19: user 1 toggles the unclaimed seed activity 2. -/
theorem claim_fields_agree_witness :
    (putActivityDevelopment (seedActivities "t") "2" "1").2.map
      (fun a => (a.inDevelopment, a.developmentBy)) = [(true, some "2"), (true, some "1")] ∧
    (({ seedActivity2 "t" with inDevelopment := true, developmentBy := some "1" } : Activity).inDevelopment
      = true → ({ seedActivity2 "t" with inDevelopment := true, developmentBy := some "1" } :
        Activity).developmentBy = some "1") :=
  ⟨by decide,
    (claim_fields_agree (seedActivities "t")
      (putActivityDevelopment (seedActivities "t") "2" "1").2 "2" "1"
      { seedActivity2 "t" with inDevelopment := true, developmentBy := some "1" } rfl
      [] "1" "1" { title := "x" } 7 "t").2.2.1⟩

/-! ## Removing and adding columns, in detail -/

/-- A property assignment is invisible to any reading `g` that `f` leaves
alone. -/
theorem assign_map {β : Type} (heap : List Column) (r r' : Nat) (f : Column → Column)
    (g : Column → β) (hg : ∀ c, g (f c) = g c) :
    ((assign heap r f)[r']?).map g = (heap[r']?).map g := by
  by_cases hr : r = r'
  · subst hr
    rw [assign_getElem?_eq]
    cases heap[r]? <;> simp [hg]
  · rw [assign_getElem?_ne _ _ _ _ hr]

/-- The numbering loop is invisible to any reading that ignores `order`. -/
theorem renumber_map {β : Type} (g : Column → β)
    (hg : ∀ (c : Column) (k : Nat), g { c with order := k } = g c)
    (k : Nat) (rs : List Nat) (heap : List Column) (r : Nat) :
    ((renumber k rs heap)[r]?).map g = (heap[r]?).map g := by
  induction rs generalizing k heap with
  | nil => rfl
  | cons x xs ih =>
    simp only [renumber]
    rw [ih, assign_map heap x r _ g (fun c => hg c k)]

/-- Two heaps that read alike through `g` show the same `g` values. -/
theorem filterMap_map_congr {β : Type} (g : Column → β) (heap heap' : List Column)
    (rs : List Nat) (h : ∀ r : Nat, (heap'[r]?).map g = (heap[r]?).map g) :
    (rs.filterMap (fun r => heap'[r]?)).map g = (rs.filterMap (fun r => heap[r]?)).map g := by
  induction rs with
  | nil => rfl
  | cons x xs ih =>
    have hx := h x
    cases h1 : heap'[x]? with
    | none =>
      cases h2 : heap[x]? with
      | none => simp [List.filterMap_cons, h1, h2, ih]
      | some c => simp [h1, h2] at hx
    | some c' =>
      cases h2 : heap[x]? with
      | none => simp [h1, h2] at hx
      | some c =>
        simp only [h1, h2, Option.map_some', Option.some.injEq] at hx
        simp [List.filterMap_cons, h1, h2, ih, hx]

/-- Filtering the references by a test on the objects is filtering the
objects. -/
theorem filter_filterMap (q : Column → Bool) (heap : List Column) (rs : List Nat) :
    (rs.filter (fun r =>
        match heap[r]? with
        | some c => q c
        | none => true)).filterMap (fun r => heap[r]?) =
      (rs.filterMap (fun r => heap[r]?)).filter q := by
  induction rs with
  | nil => rfl
  | cons x xs ih =>
    cases hx : heap[x]? with
    | none => simp [List.filter_cons, List.filterMap_cons, hx, ih]
    | some c =>
      by_cases hq : q c = true
      · simp [List.filter_cons, List.filterMap_cons, hx, hq, ih]
      · simp [List.filter_cons, List.filterMap_cons, hx, hq, ih]

/-- `ColumnManager.remove` goes through when no loaded activity references
the column and there are at least two columns. -/
theorem remove_success (s : AppState) (columnId : String)
    (hact : ∀ a ∈ s.activities, a.column ≠ columnId) (hlen : 2 ≤ s.columns.length) :
    ColumnManager.remove s columnId =
      ({ s with
          heap := renumber 0 (s.columns.filter (fun r =>
            match s.heap[r]? with
            | some c => c.id != columnId
            | none => true)) s.heap
          columns := s.columns.filter (fun r =>
            match s.heap[r]? with
            | some c => c.id != columnId
            | none => true) }, none) := by
  have h1 : s.activities.any (fun a => a.column == columnId) = false := by
    rw [List.any_eq_false]
    intro a ha
    simpa using hact a ha
  have h2 : ¬ s.columns.length ≤ 1 := by omega
  simp [ColumnManager.remove, h1, h2]

/-- After a removal that goes through, the columns read through any `g`
that ignores `order` are the previous ones without those carrying the id. -/
theorem remove_success_map {β : Type} (g : Column → β)
    (hg : ∀ (c : Column) (k : Nat), g { c with order := k } = g c)
    (s : AppState) (columnId : String)
    (hact : ∀ a ∈ s.activities, a.column ≠ columnId) (hlen : 2 ≤ s.columns.length) :
    (ColumnManager.remove s columnId).1.currentColumns.map g =
      (s.currentColumns.filter (fun c => c.id != columnId)).map g := by
  rw [remove_success s columnId hact hlen]
  simp only [AppState.currentColumns]
  rw [filterMap_map_congr g s.heap _ _ (fun r => renumber_map g hg 0 _ s.heap r),
    filter_filterMap (fun c => c.id != columnId) s.heap s.columns]

/-- Valid references with pairwise distinct column ids are pairwise distinct. -/
theorem unaliased_of_distinct_ids (s : AppState)
    (hv : ∀ r ∈ s.columns, r < s.heap.length)
    (hids : (s.currentColumns.map (·.id)).Nodup) : s.Unaliased := by
  refine ⟨?_, hv⟩
  unfold AppState.currentColumns at hids
  generalize s.columns = rs at hv hids
  induction rs with
  | nil => exact List.nodup_nil
  | cons x xs ih =>
    have hxlt : x < s.heap.length := hv x (List.mem_cons_self x xs)
    have hx : s.heap[x]? = some s.heap[x] := List.getElem?_eq_getElem hxlt
    simp only [List.filterMap_cons, hx, List.map_cons, List.nodup_cons] at hids
    refine List.nodup_cons.mpr ⟨?_, ih (fun r hr => hv r (List.mem_cons_of_mem x hr)) hids.2⟩
    intro hmem
    apply hids.1
    exact List.mem_map.mpr ⟨s.heap[x], List.mem_filterMap.mpr ⟨x, hmem, hx⟩, rfl⟩

/-- In a list with pairwise distinct ids, dropping the columns that carry the
id of `c` drops `c` alone. -/
theorem filter_id_ne (pre post : List Column) (c : Column)
    (hids : ((pre ++ c :: post).map (·.id)).Nodup) :
    (pre ++ c :: post).filter (fun x => x.id != c.id) = pre ++ post := by
  simp only [List.map_append, List.map_cons] at hids
  have hpre : ∀ x ∈ pre, x.id ≠ c.id := by
    intro x hx he
    have h1 : x.id ∈ pre.map (·.id) := List.mem_map.mpr ⟨x, hx, rfl⟩
    have h2 : x.id ∈ c.id :: post.map (·.id) := he ▸ List.mem_cons_self _ _
    exact (List.nodup_append.mp hids).2.2 h1 h2
  have hpost : ∀ x ∈ post, x.id ≠ c.id := by
    intro x hx he
    have h1 := (List.nodup_cons.mp (List.nodup_append.mp hids).2.1).1
    exact h1 (he ▸ List.mem_map.mpr ⟨x, hx, rfl⟩)
  rw [List.filter_append, List.filter_cons]
  have e1 : pre.filter (fun x => x.id != c.id) = pre :=
    List.filter_eq_self.mpr (fun x hx => by simpa using hpre x hx)
  have e2 : post.filter (fun x => x.id != c.id) = post :=
    List.filter_eq_self.mpr (fun x hx => by simpa using hpost x hx)
  simp [e1, e2]

/-- After a removal that goes through, the orders are the array positions,
provided every array position holds its own object. -/
theorem remove_success_orders (s : AppState) (columnId : String) (hu : s.Unaliased)
    (hact : ∀ a ∈ s.activities, a.column ≠ columnId) (hlen : 2 ≤ s.columns.length) :
    (ColumnManager.remove s columnId).1.currentColumns.map (·.order) =
      List.range (ColumnManager.remove s columnId).1.currentColumns.length := by
  have hp := remove_preserves_unaliased s columnId hu
  rw [currentColumns_length _ hp]
  rw [remove_success s columnId hact hlen] at hp ⊢
  simp only [AppState.currentColumns]
  rw [renumber_orders 0 _ s.heap (hu.1.filter _)
    (fun r hr => hu.2 r (List.mem_of_mem_filter hr)), List.range_eq_range']

/-- C17, evaluated: from the default template, two `add` calls in the same
millisecond give five columns, two of them with id `col_5`; no activity is
loaded, and `remove` of `col_5` goes through without alert and leaves the
three template columns: two columns are gone, not one. -/
theorem remove_drops_both_namesakes :
    (runOps (AppState.ofProject defaultColumns []) [.add 5, .add 5]).currentColumns.map (·.id)
      = ["todo", "progress", "done", "col_5", "col_5"] ∧
    (runOps (AppState.ofProject defaultColumns []) [.add 5, .add 5]).activities = [] ∧
    (ColumnManager.remove (runOps (AppState.ofProject defaultColumns []) [.add 5, .add 5])
        "col_5").2 = none ∧
    (ColumnManager.remove (runOps (AppState.ofProject defaultColumns []) [.add 5, .add 5])
        "col_5").1.currentColumns = defaultColumns := by
  refine ⟨?_, ?_, ?_, ?_⟩ <;> decide

/-- C17, amended: in a project whose column ids are pairwise distinct, with
at least two columns, a `remove` of one of its columns that no loaded
activity references goes through without alert and leaves the previous list
without that one column: the remaining columns keep their ids, names and
sequence, and their orders are their new positions. (`hv` says that every
array entry refers to an object, as it always does in JavaScript.) -/
theorem remove_drops_exactly_that_column (s : AppState) (columnId : String)
    (hv : ∀ r ∈ s.columns, r < s.heap.length)
    (hids : (s.currentColumns.map (·.id)).Nodup)
    (hlen : 2 ≤ s.currentColumns.length)
    (hmem : columnId ∈ s.currentColumns.map (·.id))
    (hact : ∀ a ∈ s.activities, a.column ≠ columnId) :
    (ColumnManager.remove s columnId).2 = none ∧
    ∃ pre c post, s.currentColumns = pre ++ c :: post ∧ c.id = columnId ∧
      (ColumnManager.remove s columnId).1.currentColumns.map (·.id)
        = (pre ++ post).map (·.id) ∧
      (ColumnManager.remove s columnId).1.currentColumns.map (·.name)
        = (pre ++ post).map (·.name) ∧
      (ColumnManager.remove s columnId).1.currentColumns.map (·.order)
        = List.range (pre ++ post).length := by
  have hu := unaliased_of_distinct_ids s hv hids
  have hlen' : 2 ≤ s.columns.length := by
    rw [← currentColumns_length s hu]; exact hlen
  obtain ⟨c, hc, hcid⟩ := List.mem_map.mp hmem
  obtain ⟨pre, post, hsplit⟩ := List.append_of_mem hc
  have hfilter : s.currentColumns.filter (fun x => x.id != columnId) = pre ++ post := by
    rw [← hcid, hsplit]
    exact filter_id_ne pre post c (by rw [← hsplit]; exact hids)
  have hid := remove_success_map (·.id) (fun _ _ => rfl) s columnId hact hlen'
  have hname := remove_success_map (·.name) (fun _ _ => rfl) s columnId hact hlen'
  rw [hfilter] at hid hname
  have hcount : (ColumnManager.remove s columnId).1.currentColumns.length
      = (pre ++ post).length := by
    have := congrArg List.length hid
    simpa only [List.length_map] using this
  refine ⟨by rw [remove_success s columnId hact hlen'], pre, c, post, hsplit, hcid, hid,
    hname, ?_⟩
  rw [remove_success_orders s columnId hu hact hlen', hcount]

/-- Witness for C17: `todo` is removed from the default template. -/
theorem remove_drops_exactly_that_column_witness :
    (ColumnManager.remove (AppState.ofProject defaultColumns []) "todo").2 = none ∧
    ∃ pre c post, (AppState.ofProject defaultColumns []).currentColumns = pre ++ c :: post ∧
      c.id = "todo" ∧
      (ColumnManager.remove (AppState.ofProject defaultColumns []) "todo").1.currentColumns.map
        (·.id) = (pre ++ post).map (·.id) ∧
      (ColumnManager.remove (AppState.ofProject defaultColumns []) "todo").1.currentColumns.map
        (·.name) = (pre ++ post).map (·.name) ∧
      (ColumnManager.remove (AppState.ofProject defaultColumns []) "todo").1.currentColumns.map
        (·.order) = List.range (pre ++ post).length :=
  remove_drops_exactly_that_column (AppState.ofProject defaultColumns []) "todo"
    (by decide) (by decide) (by decide) (by decide) (by simp [AppState.ofProject])

/-- The example of C17: the template without `todo` is `progress` at 0 and
`done` at 1. -/
theorem remove_todo_from_template :
    (ColumnManager.remove (AppState.ofProject defaultColumns []) "todo").1.currentColumns =
      [⟨"progress", "Em Progresso", 0⟩, ⟨"done", "Finalizado", 1⟩] := by
  decide

/-- `ColumnManager.add` appends one column, with the next order, the default
name and the id made from the timestamp, and leaves the columns before it
as they were. -/
theorem add_appends (s : AppState) (now : Nat)
    (hv : ∀ r ∈ s.columns, r < s.heap.length) :
    (ColumnManager.add s now).currentColumns =
      s.currentColumns ++
        [{ id := "col_" ++ toString now, name := "Nova Coluna",
           order := s.currentColumns.length }] := by
  have hold : s.columns.filterMap (fun r => (s.heap ++
      [({ id := "col_" ++ toString now, name := "Nova Coluna",
          order := s.columns.length } : Column)])[r]?) =
      s.columns.filterMap (fun r => s.heap[r]?) := by
    apply List.filterMap_congr
    intro r hr
    exact List.getElem?_append_left (hv r hr)
  have hlen : s.currentColumns.length = s.columns.length :=
    filterMap_getElem?_length s.heap s.columns hv
  rw [hlen]
  simp only [ColumnManager.add, AppState.currentColumns, List.filterMap_append, hold]
  simp

/-- C18, evaluated: on the default template `add` at millisecond 5 appends
`col_5`; a second `add` in the same millisecond appends a column whose
generated id `col_5` is the id of a column already present; and after
`col_5` has been removed, an `add` at millisecond 5 brings the removed id
back. -/
theorem add_repeats_column_id :
    (ColumnManager.add (AppState.ofProject defaultColumns []) 5).currentColumns.map (·.id)
      = ["todo", "progress", "done", "col_5"] ∧
    (ColumnManager.add (ColumnManager.add (AppState.ofProject defaultColumns []) 5)
        5).currentColumns.map (·.id)
      = ["todo", "progress", "done", "col_5", "col_5"] ∧
    ¬ ((ColumnManager.add (ColumnManager.add (AppState.ofProject defaultColumns []) 5)
        5).currentColumns.map (·.id)).Nodup ∧
    (runOps (AppState.ofProject defaultColumns []) [.add 5, .remove "col_5"]).currentColumns.map
      (·.id) = ["todo", "progress", "done"] ∧
    (runOps (AppState.ofProject defaultColumns [])
        [.add 5, .remove "col_5", .add 5]).currentColumns.map (·.id)
      = ["todo", "progress", "done", "col_5"] := by
  refine ⟨?_, ?_, ?_, ?_, ?_⟩ <;> decide

/-! ## Orphaned activities -/

/-- C12, evaluated on the seeded database, where no activity is orphaned:
moving activity 2 to `nowhere`, creating an activity in column `nowhere`,
and replacing the columns of project 1 by `done` alone each leave an
orphaned activity on the server; on the client, saving the dialog with the
name of `todo` blanked drops `todo` while activity 2 sits in it. -/
theorem orphans_can_appear :
    NoOrphans [seedProject "t"] (seedActivities "t") ∧
    ¬ NoOrphans [seedProject "t"]
      (putActivity (seedActivities "t") "2" "1" { column := some "nowhere" }).2 ∧
    ¬ NoOrphans [seedProject "t"]
      (postActivity (seedActivities "t") "1" "1"
        { title := "x", column := some "nowhere" } 7 "t").2 ∧
    ¬ NoOrphans (putProjectColumns [seedProject "t"] "1" "1" [⟨"done", "Finalizado", 0⟩]).2
      (seedActivities "t") ∧
    (AppState.ofProject defaultColumns (seedActivities "t")).NoOrphans ∧
    ¬ (ColumnManager.save (AppState.ofProject defaultColumns (seedActivities "t"))
        [⟨"todo", ""⟩, ⟨"progress", "Em Progresso"⟩, ⟨"done", "Finalizado"⟩]).1.NoOrphans := by
  refine ⟨?_, ?_, ?_, ?_, ?_, ?_⟩ <;> decide

/-- Creation keeps the board free of orphans when the column it stores is a
column of a stored project with the given id. -/
theorem create_keeps_noOrphans (projects : List Project) (activities : List Activity)
    (projectId u : String) (body : NewActivityBody) (now : Nat) (iso : String)
    (h : NoOrphans projects activities)
    (hcol : ∃ p ∈ projects, p.id = projectId ∧
      ∃ c ∈ p.columns, c.id = orElse body.column "todo") :
    NoOrphans projects (postActivity activities projectId u body now iso).2 := by
  intro a ha
  simp only [postActivity, List.mem_append, List.mem_singleton] at ha
  rcases ha with ha | rfl
  · exact h a ha
  · exact hcol

/-- A move keeps the board free of orphans when the target is a column of
the project of the moved activity. -/
theorem move_keeps_noOrphans (projects : List Project) (activities : List Activity)
    (id u c : String) (h : NoOrphans projects activities)
    (hcol : ∀ a ∈ activities, a.id = id →
      ∃ p ∈ projects, p.id = a.projectId ∧ ∃ col ∈ p.columns, col.id = c) :
    NoOrphans projects (putActivity activities id u { column := some c }).2 := by
  cases hidx : findIndex (fun a : Activity => a.id == id) activities with
  | none =>
    have hnone : ∀ b ∈ activities, b.id ≠ id := fun b hb => by
      simpa using (findIndex_eq_none _ activities).mp hidx b hb
    rw [putActivity_not_found activities id u _ hnone]
    exact h
  | some i =>
    obtain ⟨pre, a, post, hl, _, ha, hpre⟩ := findIndex_eq_some _ activities i hidx
    have ha' : a.id = id := by simpa using ha
    have hpre' : ∀ b ∈ pre, b.id ≠ id := fun b hb => by simpa using hpre b hb
    subst hl
    rw [putActivity_at pre post a id u _ hpre' ha', spread_column]
    intro b hb
    simp only [List.mem_append, List.mem_cons] at hb
    rcases hb with hb | rfl | hb
    · exact h b (by simp [hb])
    · exact hcol a (by simp) ha'
    · exact h b (by simp [hb])

/-- Replacing the column set keeps the board free of orphans when the
submitted list still holds every column that an activity of the project
sits in. -/
theorem replace_keeps_noOrphans (projects : List Project) (activities : List Activity)
    (id u : String) (columns : List Column) (h : NoOrphans projects activities)
    (hcol : ∀ a ∈ activities, a.projectId = id → ∃ col ∈ columns, col.id = a.column) :
    NoOrphans (putProjectColumns projects id u columns).2 activities := by
  cases hidx : findIndex (fun p : Project => p.id == id) projects with
  | none =>
    simp only [putProjectColumns, hidx]
    exact h
  | some i =>
    obtain ⟨pre, p, post, hl, _, hp, hpre⟩ := findIndex_eq_some _ projects i hidx
    have hp' : p.id = id := by simpa using hp
    have hpre' : ∀ q ∈ pre, q.id ≠ id := fun q hq => by simpa using hpre q hq
    subst hl
    rw [putProjectColumns_at pre post p id u columns hpre' hp']
    split
    · exact h
    · intro a ha
      obtain ⟨q, hq, hqid, hqcol⟩ := h a ha
      simp only [List.mem_append, List.mem_cons] at hq
      rcases hq with hq | rfl | hq
      · exact ⟨q, by simp [hq], hqid, hqcol⟩
      · exact ⟨{ q with columns := columns }, by simp, hqid,
          hcol a ha (by rw [← hqid, hp'])⟩
      · exact ⟨q, by simp [hq], hqid, hqcol⟩

/-- `ColumnManager.remove` keeps the client board free of orphans. -/
theorem remove_keeps_noOrphans (s : AppState) (columnId : String) (h : s.NoOrphans) :
    (ColumnManager.remove s columnId).1.NoOrphans := by
  by_cases h1 : s.activities.any (fun a => a.column == columnId) = true
  · simpa [ColumnManager.remove, h1] using h
  · by_cases h2 : s.columns.length ≤ 1
    · simpa [ColumnManager.remove, h1, h2] using h
    · have hact : ∀ a ∈ s.activities, a.column ≠ columnId := by
        intro a ha he
        apply h1
        exact List.any_eq_true.mpr ⟨a, ha, by simpa using he⟩
      have hlen : 2 ≤ s.columns.length := by omega
      have hid := remove_success_map (·.id) (fun _ _ => rfl) s columnId hact hlen
      have hacts : (ColumnManager.remove s columnId).1.activities = s.activities := by
        rw [remove_success s columnId hact hlen]
      intro a ha
      rw [hacts] at ha
      obtain ⟨c, hc, hca⟩ := h a ha
      have hmem : a.column ∈ (ColumnManager.remove s columnId).1.currentColumns.map (·.id) := by
        rw [hid]
        refine List.mem_map.mpr ⟨c, List.mem_filter.mpr ⟨hc, ?_⟩, hca⟩
        have := hact a ha
        simpa [hca] using this
      obtain ⟨c', hc', hc'a⟩ := List.mem_map.mp hmem
      exact ⟨c', hc', hc'a⟩

/-- C12, amended: the server does not look at column ids, so creation, move
and column replacement keep the board free of orphans exactly as far as the
request names columns that exist: creation when the stored column (the
submitted one, or `todo`) is a column of a stored project with the given id,
a move when the target is a column of the project of the moved activity, a
column replacement when the submitted list still holds every column an
activity of the project sits in. On the client, `ColumnManager.remove`
keeps the loaded board free of orphans without any condition. -/
theorem no_orphans_kept_when_columns_exist (projects : List Project)
    (activities : List Activity) (s : AppState)
    (h : NoOrphans projects activities) (hs : s.NoOrphans) :
    (∀ (projectId u : String) (body : NewActivityBody) (now : Nat) (iso : String),
      (∃ p ∈ projects, p.id = projectId ∧
        ∃ c ∈ p.columns, c.id = orElse body.column "todo") →
      NoOrphans projects (postActivity activities projectId u body now iso).2) ∧
    (∀ (id u c : String),
      (∀ a ∈ activities, a.id = id →
        ∃ p ∈ projects, p.id = a.projectId ∧ ∃ col ∈ p.columns, col.id = c) →
      NoOrphans projects (putActivity activities id u { column := some c }).2) ∧
    (∀ (id u : String) (columns : List Column),
      (∀ a ∈ activities, a.projectId = id → ∃ col ∈ columns, col.id = a.column) →
      NoOrphans (putProjectColumns projects id u columns).2 activities) ∧
    (∀ columnId : String, (ColumnManager.remove s columnId).1.NoOrphans) :=
  ⟨fun projectId u body now iso hcol =>
      create_keeps_noOrphans projects activities projectId u body now iso h hcol,
    fun id u c hcol => move_keeps_noOrphans projects activities id u c h hcol,
    fun id u columns hcol => replace_keeps_noOrphans projects activities id u columns h hcol,
    fun columnId => remove_keeps_noOrphans s columnId hs⟩

/-- Witness for C12: on the seeded board, activity 2 is moved to `done` and
the client removes `done`. -/
theorem no_orphans_kept_when_columns_exist_witness :
    NoOrphans [seedProject "t"]
      (putActivity (seedActivities "t") "2" "1" { column := some "done" }).2 ∧
    (ColumnManager.remove (AppState.ofProject defaultColumns (seedActivities "t"))
      "done").1.NoOrphans :=
  ⟨(no_orphans_kept_when_columns_exist [seedProject "t"] (seedActivities "t")
      (AppState.ofProject defaultColumns (seedActivities "t"))
      (by decide) (by decide)).2.1 "2" "1" "done" (by decide),
   (no_orphans_kept_when_columns_exist [seedProject "t"] (seedActivities "t")
      (AppState.ofProject defaultColumns (seedActivities "t"))
      (by decide) (by decide)).2.2.2 "done"⟩

/-! ## Simultaneous toggles -/

/-- A schedule of the requests of two distinct users is one of the two
orders. -/
theorem schedule_of_two (u v : String) (schedule : List String)
    (hs : schedule.Perm [u, v]) : schedule = [u, v] ∨ schedule = [v, u] := by
  have hlen := hs.length_eq
  match schedule, hs, hlen with
  | [x, y], hs, _ =>
    have hx : x ∈ [u, v] := hs.subset (by simp)
    have hy : y ∈ [u, v] := hs.subset (by simp)
    have hu : u ∈ [x, y] := hs.symm.subset (by simp)
    have hv : v ∈ [x, y] := hs.symm.subset (by simp)
    simp only [List.mem_cons, List.mem_singleton, List.not_mem_nil, or_false] at hx hy hu hv
    rcases hx with rfl | rfl
    · rcases hy with rfl | rfl
      · rcases hv with rfl | rfl <;> simp
      · simp
    · rcases hy with rfl | rfl
      · simp
      · rcases hu with rfl | rfl <;> simp

/-- Two toggles on an unclaimed activity, handled in the order `w`, `l` with
`w` and `l` distinct: `w` claims the activity and `l` is refused. -/
theorem runToggles_pair (pre post : List Activity) (a : Activity) (id w l : String)
    (hpre : ∀ b ∈ pre, b.id ≠ id) (ha : a.id = id)
    (hdev : a.inDevelopment = false) (hwl : w ≠ l) :
    runToggles (pre ++ a :: post) id [w, l] =
      ([.json { a with inDevelopment := true, developmentBy := some w },
        .error 403 "Esta atividade já está sendo desenvolvida por outro usuário"],
        pre ++ { a with inDevelopment := true, developmentBy := some w } :: post) := by
  have h1 : putActivityDevelopment (pre ++ a :: post) id w =
      (.json { a with inDevelopment := true, developmentBy := some w },
        pre ++ { a with inDevelopment := true, developmentBy := some w } :: post) := by
    rw [putActivityDevelopment_at pre post a id w hpre ha]
    simp [hdev]
  have h2 : putActivityDevelopment
      (pre ++ { a with inDevelopment := true, developmentBy := some w } :: post) id l =
      (.error 403 "Esta atividade já está sendo desenvolvida por outro usuário",
        pre ++ { a with inDevelopment := true, developmentBy := some w } :: post) := by
    rw [putActivityDevelopment_at pre post
      { a with inDevelopment := true, developmentBy := some w } id l hpre ha]
    simp [hwl]
  simp only [runToggles, h1, h2]

/-- C7: two simultaneous toggles by distinct users `u` and `v` on the same
unclaimed activity. Under every schedule of the two requests there are a
winner and a loser, the two users in the order they are handled: the winner
is answered with the activity claimed by the winner, the loser is answered
with status 403, and the activity is stored claimed by the winner. So the
statuses are 200 and 403 under every schedule: never two successes, and
never an activity left unclaimed. -/
theorem concurrent_toggles_one_winner (pre post : List Activity) (a : Activity)
    (id u v : String) (hpre : ∀ b ∈ pre, b.id ≠ id) (ha : a.id = id)
    (hdev : a.inDevelopment = false) (huv : u ≠ v)
    (schedule : List String) (hs : schedule.Perm [u, v]) :
    ∃ winner loser, schedule = [winner, loser] ∧ winner ≠ loser ∧
      ((winner = u ∧ loser = v) ∨ (winner = v ∧ loser = u)) ∧
      runToggles (pre ++ a :: post) id schedule =
        ([.json { a with inDevelopment := true, developmentBy := some winner },
          .error 403 "Esta atividade já está sendo desenvolvida por outro usuário"],
          pre ++ { a with inDevelopment := true, developmentBy := some winner } :: post) ∧
      (runToggles (pre ++ a :: post) id schedule).1.map Response.status = [200, 403] ∧
      (runToggles (pre ++ a :: post) id schedule).2[pre.length]?.map
        (fun b => (b.inDevelopment, b.developmentBy)) = some (true, some winner) := by
  rcases schedule_of_two u v schedule hs with rfl | rfl
  · have h := runToggles_pair pre post a id u v hpre ha hdev huv
    refine ⟨u, v, rfl, huv, Or.inl ⟨rfl, rfl⟩, h, ?_, ?_⟩
    · rw [h]; rfl
    · rw [h]; simp only [getElem?_first, Option.map_some']
  · have hvu : v ≠ u := fun e => huv e.symm
    have h := runToggles_pair pre post a id v u hpre ha hdev hvu
    refine ⟨v, u, rfl, hvu, Or.inr ⟨rfl, rfl⟩, h, ?_, ?_⟩
    · rw [h]; rfl
    · rw [h]; simp only [getElem?_first, Option.map_some']

/-- Witness for C7: users 1 and 3 toggle the unclaimed seed activity 2 and
the request of user 3 is handled first. -/
theorem concurrent_toggles_one_winner_witness :
    ∃ winner loser, ["3", "1"] = [winner, loser] ∧ winner ≠ loser ∧
      ((winner = "1" ∧ loser = "3") ∨ (winner = "3" ∧ loser = "1")) ∧
      runToggles (seedActivities "t") "2" ["3", "1"] =
        ([.json { seedActivity2 "t" with inDevelopment := true, developmentBy := some winner },
          .error 403 "Esta atividade já está sendo desenvolvida por outro usuário"],
          [seedActivity1 "t",
            { seedActivity2 "t" with inDevelopment := true, developmentBy := some winner }]) :=
  (concurrent_toggles_one_winner [seedActivity1 "t"] [] (seedActivity2 "t") "2" "1" "3"
    (by decide) rfl rfl (by decide) ["3", "1"] (List.Perm.swap "1" "3" [])).imp
    fun _ h => h.imp fun _ h => ⟨h.1, h.2.1, h.2.2.1, h.2.2.2.1⟩

end Board
